import Mathlib

/-!
# Timing harness of `liu-cn/pkg` (`bench.go`, `benchmark/bench.go`) and the
encoder configuration of `logger/zap.go`

The Go code is embedded shallowly.

* A Go function body that runs in a world `σ` (everything the work unit can read
  or write, the wall clock included) becomes a function `σ → Outcome ε α σ`: it
  either returns a value, or panics with a panic value, and in both cases leaves
  a world behind.
* `time.Now()` is a parameter `timeNow : σ → Instant × σ`: the reading and the world
  after the reading.
* `runNum` is a Go `int`; the loops only compare with it and increment below it, so
  no arithmetic of the repository wraps and `runNum` and the loop index are `Int`s.
  Only `wg.Add(runNum)` truncates it: the counter of a `sync.WaitGroup` is an
  `int32`.
* The sequential harnesses carry a ghost trace of the loop indices at which the
  work unit was invoked.
* `BenchTimeSync` spawns goroutines; it is a transition system whose actions are
  the atomic steps of the calling goroutine and of the spawned goroutines, run
  under an arbitrary schedule. An invocation of the work unit is one atomic step
  (the work unit is required to be safe to invoke concurrently). A panic in a
  spawned goroutine does not stop the other goroutines at once: schedules go on
  after it.
* `benchmark/bench.go` repeats `bench.go` under the names `Time`, `TimeAndRes` and
  `TimeSync`; it is embedded separately and proved to agree.
-/

namespace pkg

/-- Result of running a piece of Go code: a normal return with a value, or a panic
with a panic value; the world it leaves behind in both cases. -/
inductive Outcome (ε α σ : Type) where
  | ret (v : α) (s : σ)
  | panic (e : ε) (s : σ)
  deriving DecidableEq, Repr

/-- An instant of `time.Time`, as a count of clock units. -/
abbrev Instant := Nat

/-- The Go struct `Info`: `start`, `end` and `LastRes` (an `interface{}`, whose
`nil` is `none`). -/
structure Info (ρ : Type) where
  start : Instant
  end_ : Instant
  LastRes : Option ρ
  deriving DecidableEq, Repr

/-- World of a sequential harness call, with the ghost trace of the loop indices at
which the work unit has been invoked so far (oldest first). -/
structure Seq (σ : Type) where
  world : σ
  trace : List Int
  deriving DecidableEq, Repr

/-- The statement `fn()` / `v := fn()` executed at loop index `i`: runs the work
unit on the world and records the invocation in the ghost trace. -/
def invoke {ε α σ : Type} (fn : σ → Outcome ε α σ) (i : Int) (h : Seq σ) :
    Outcome ε α (Seq σ) :=
  match fn h.world with
  | .ret v w => .ret v ⟨w, h.trace ++ [i]⟩
  | .panic e w => .panic e ⟨w, h.trace ++ [i]⟩

/-- The loop `for i := 0; i < runNum; i++ { fn() }` of `BenchTime`, entered at
index `i`. -/
def BenchTime.loop {ε σ : Type} (fn : σ → Outcome ε Unit σ) (runNum : Int) (i : Int)
    (h : Seq σ) : Outcome ε Unit (Seq σ) :=
  if i < runNum then
    match invoke fn i h with
    | .ret _ h1 => BenchTime.loop fn runNum (i + 1) h1
    | .panic e h1 => .panic e h1
  else .ret () h
termination_by (runNum - i).toNat
decreasing_by omega

/-- Go `BenchTime(fn, runNum)` of `bench.go`. -/
def BenchTime {ε σ ρ : Type} (timeNow : σ → Instant × σ) (fn : σ → Outcome ε Unit σ)
    (runNum : Int) (w : σ) : Outcome ε (Info ρ) (Seq σ) :=
  let now := timeNow w
  match BenchTime.loop fn runNum 0 ⟨now.2, []⟩ with
  | .ret _ h =>
    let fin := timeNow h.world
    .ret { start := now.1, end_ := fin.1, LastRes := none } ⟨fin.2, h.trace⟩
  | .panic e h => .panic e h

/-- The loop of `BenchTimeAndRes`, entered at index `i` with the current value of
the variable `res`. -/
def BenchTimeAndRes.loop {ε σ ρ : Type} (fn : σ → Outcome ε (Option ρ) σ) (runNum : Int)
    (i : Int) (res : Option ρ) (h : Seq σ) : Outcome ε (Option ρ) (Seq σ) :=
  if i < runNum then
    match invoke fn i h with
    | .ret v h1 =>
      BenchTimeAndRes.loop fn runNum (i + 1) (if i = runNum - 1 then v else res) h1
    | .panic e h1 => .panic e h1
  else .ret res h
termination_by (runNum - i).toNat
decreasing_by omega

/-- Go `BenchTimeAndRes(fn, runNum)` of `bench.go`. -/
def BenchTimeAndRes {ε σ ρ : Type} (timeNow : σ → Instant × σ)
    (fn : σ → Outcome ε (Option ρ) σ) (runNum : Int) (w : σ) :
    Outcome ε (Info ρ) (Seq σ) :=
  let now := timeNow w
  match BenchTimeAndRes.loop fn runNum 0 none ⟨now.2, []⟩ with
  | .ret res h =>
    let fin := timeNow h.world
    .ret { start := now.1, end_ := fin.1, LastRes := res } ⟨fin.2, h.trace⟩
  | .panic e h => .panic e h

/-- The result of the `(k+1)`-th of `k+1` successive invocations of the work unit
from the world `w`: the reference the harness is compared with. -/
def nthCall {ε α σ : Type} (fn : σ → Outcome ε α σ) : Nat → σ → Outcome ε α σ
  | 0, w => fn w
  | k + 1, w =>
    match fn w with
    | .ret _ w1 => nthCall fn k w1
    | .panic e w1 => .panic e w1

/-- The world after `k` successive returning invocations of the work unit from `w`
(`none` when one of them panics). -/
def afterCalls {ε α σ : Type} (fn : σ → Outcome ε α σ) : Nat → σ → Option σ
  | 0, w => some w
  | k + 1, w =>
    match fn w with
    | .ret _ w1 => afterCalls fn k w1
    | .panic _ _ => none

/-- A work unit that never panics. -/
def NonFailing {ε α σ : Type} (fn : σ → Outcome ε α σ) : Prop :=
  ∀ w, ∃ v w1, fn w = .ret v w1

/-- The loop indices `i, i+1, ..., i+k-1`. -/
def indices (i : Int) : Nat → List Int
  | 0 => []
  | k + 1 => i :: indices (i + 1) k


/-! ### `benchmark/bench.go`: the same three functions under other names -/

/-- The loop of `benchmark.Time`, entered at index `i`. -/
def benchmark.Time.loop {ε σ : Type} (fn : σ → Outcome ε Unit σ) (runNum : Int) (i : Int)
    (h : Seq σ) : Outcome ε Unit (Seq σ) :=
  if i < runNum then
    match invoke fn i h with
    | .ret _ h1 => benchmark.Time.loop fn runNum (i + 1) h1
    | .panic e h1 => .panic e h1
  else .ret () h
termination_by (runNum - i).toNat
decreasing_by omega

/-- Go `Time(fn, runNum)` of `benchmark/bench.go`. -/
def benchmark.Time {ε σ ρ : Type} (timeNow : σ → Instant × σ) (fn : σ → Outcome ε Unit σ)
    (runNum : Int) (w : σ) : Outcome ε (Info ρ) (Seq σ) :=
  let now := timeNow w
  match benchmark.Time.loop fn runNum 0 ⟨now.2, []⟩ with
  | .ret _ h =>
    let fin := timeNow h.world
    .ret { start := now.1, end_ := fin.1, LastRes := none } ⟨fin.2, h.trace⟩
  | .panic e h => .panic e h

/-- The loop of `benchmark.TimeAndRes`, entered at index `i` with the current value
of the variable `res`. -/
def benchmark.TimeAndRes.loop {ε σ ρ : Type} (fn : σ → Outcome ε (Option ρ) σ)
    (runNum : Int) (i : Int) (res : Option ρ) (h : Seq σ) : Outcome ε (Option ρ) (Seq σ) :=
  if i < runNum then
    match invoke fn i h with
    | .ret v h1 =>
      benchmark.TimeAndRes.loop fn runNum (i + 1) (if i = runNum - 1 then v else res) h1
    | .panic e h1 => .panic e h1
  else .ret res h
termination_by (runNum - i).toNat
decreasing_by omega

/-- Go `TimeAndRes(fn, runNum)` of `benchmark/bench.go`. -/
def benchmark.TimeAndRes {ε σ ρ : Type} (timeNow : σ → Instant × σ)
    (fn : σ → Outcome ε (Option ρ) σ) (runNum : Int) (w : σ) :
    Outcome ε (Info ρ) (Seq σ) :=
  let now := timeNow w
  match benchmark.TimeAndRes.loop fn runNum 0 none ⟨now.2, []⟩ with
  | .ret res h =>
    let fin := timeNow h.world
    .ret { start := now.1, end_ := fin.1, LastRes := res } ⟨fin.2, h.trace⟩
  | .panic e h => .panic e h

/-! ### The clock -/

/-- Worlds reached from `w` by letting the work unit run and return any number of
times. -/
inductive Elapses {ε α σ : Type} (fn : σ → Outcome ε α σ) : σ → σ → Prop where
  | refl (w : σ) : Elapses fn w w
  | work {w w1 w2 : σ} {v : α} : Elapses fn w w1 → fn w1 = .ret v w2 → Elapses fn w w2

/-- Successive readings of the clock are non-decreasing: a reading taken after the
work unit has run any number of times since an earlier reading is not below it. -/
def NonDecreasingClock {ε α σ : Type} (timeNow : σ → Instant × σ)
    (fn : σ → Outcome ε α σ) : Prop :=
  ∀ w w1, Elapses fn (timeNow w).2 w1 → (timeNow w).1 ≤ (timeNow w1).1

/-! ### `BenchTimeSync`: goroutines and the `sync.WaitGroup` -/

/-- Go `int32(x)`: the low 32 bits of `x` read in two's complement. -/
def int32 (x : Int) : Int := (x + 2147483648) % 4294967296 - 2147483648

/-- The panics raised while `BenchTimeSync` runs: the work unit's own, and the
`sync: negative WaitGroup counter` of `wg.Add`. -/
inductive GoPanic (ε : Type) where
  | work (e : ε)
  | negativeWaitGroupCounter
  deriving DecidableEq, Repr

/-- Program point of a spawned goroutine `go func() { fn(); wg.Done() }()`. -/
inductive GPc where
  /-- started by the `go` statement, `fn()` not yet run -/
  | spawned
  /-- the call `fn()` has returned, `wg.Done()` not yet run -/
  | ran
  /-- the call `wg.Done()` has run, the goroutine is over -/
  | exited
  /-- the goroutine panicked, in `fn()` or in `wg.Done()`, and is over -/
  | panicked
  deriving DecidableEq, Repr

/-- Program point of the goroutine that called `BenchTimeSync`. -/
inductive MainPc where
  /-- before `i := Info{start: time.Now()}` -/
  | start
  /-- before `wg.Add(runNum)` -/
  | add
  /-- at the test `i < runNum` of the loop, with the loop index -/
  | loop (i : Int)
  /-- in `wg.Wait()` -/
  | wait
  /-- before `i.end = time.Now()` -/
  | stamp
  /-- after `return i` -/
  | returned
  /-- the call panicked in `wg.Add(runNum)` and returns nothing -/
  | panicked
  deriving DecidableEq, Repr

/-- State of a program running `BenchTimeSync`. -/
structure Conf (ε σ ρ : Type) where
  /-- the world shared by all goroutines -/
  world : σ
  /-- the local variable `i` of type `Info` (on return: the value returned) -/
  info : Info ρ
  /-- the counter of the `sync.WaitGroup` `wg`, a Go `int32` -/
  wg : Int
  /-- where the calling goroutine is -/
  main : MainPc
  /-- the spawned goroutines, in spawn order -/
  gs : List GPc
  /-- the panics raised so far, oldest first -/
  panics : List (GoPanic ε)
  /-- ghost: the number of invocations of the work unit so far -/
  calls : Nat

/-- An atomic step of the calling goroutine, or of the spawned goroutine number
`g`. -/
inductive Action where
  | main
  | go (g : Nat)
  deriving DecidableEq, Repr

/-- The state in which `BenchTimeSync` is called in the world `w`: `i` is the zero
`Info`, `wg` the zero `WaitGroup`. -/
def Conf.init {ε σ ρ : Type} (w : σ) : Conf ε σ ρ :=
  { world := w, info := { start := 0, end_ := 0, LastRes := none }, wg := 0,
    main := .start, gs := [], panics := [], calls := 0 }

/-- One atomic step of Go `BenchTimeSync(fn, runNum)` of `bench.go`; `none` when the
action cannot be taken (the goroutine does not exist, is over or is blocked).

The `sync.WaitGroup` is the one of the Go library, whose counter is the `int32` in
the high half of its state word: `wg.Add(delta)` leaves `int32(counter + delta)` in
the counter and panics when that is negative; `wg.Done()` is `wg.Add(-1)`;
`wg.Wait()` returns once the counter is zero.

A panic of `wg.Add(runNum)` ends the call. A panic in a spawned goroutine is
recovered by nobody and terminates the program, at a moment no goroutine controls:
until then the other goroutines go on, so a schedule may go on after it. An
invocation of the work unit is one step. -/
def BenchTimeSync.step {ε σ ρ : Type} (timeNow : σ → Instant × σ)
    (fn : σ → Outcome ε Unit σ) (runNum : Int) (c : Conf ε σ ρ) :
    Action → Option (Conf ε σ ρ)
  | .main =>
    match c.main with
    | .start =>
      let now := timeNow c.world
      some { c with world := now.2, info := { start := now.1, end_ := 0, LastRes := none },
                    main := .add }
    | .add =>
      let v := int32 (c.wg + runNum)
      if v < 0 then
        some { c with wg := v, main := .panicked,
                      panics := c.panics ++ [.negativeWaitGroupCounter] }
      else some { c with wg := v, main := .loop 0 }
    | .loop i =>
      if i < runNum then some { c with gs := c.gs ++ [.spawned], main := .loop (i + 1) }
      else some { c with main := .wait }
    | .wait => if c.wg = 0 then some { c with main := .stamp } else none
    | .stamp =>
      let now := timeNow c.world
      some { c with world := now.2, info := { c.info with end_ := now.1 }, main := .returned }
    | .returned => none
    | .panicked => none
  | .go g =>
    match c.gs[g]? with
    | some .spawned =>
      match fn c.world with
      | .ret _ w1 => some { c with world := w1, gs := c.gs.set g .ran, calls := c.calls + 1 }
      | .panic e w1 =>
        some { c with world := w1, gs := c.gs.set g .panicked, calls := c.calls + 1,
                      panics := c.panics ++ [.work e] }
    | some .ran =>
      let v := int32 (c.wg + -1)
      if v < 0 then
        some { c with wg := v, gs := c.gs.set g .panicked,
                      panics := c.panics ++ [.negativeWaitGroupCounter] }
      else some { c with wg := v, gs := c.gs.set g .exited }
    | _ => none

/-- One atomic step of Go `TimeSync(fn, runNum)` of `benchmark/bench.go`, under the
same reading of goroutines, panics and the `sync.WaitGroup` as
`BenchTimeSync.step`. -/
def benchmark.TimeSync.step {ε σ ρ : Type} (timeNow : σ → Instant × σ)
    (fn : σ → Outcome ε Unit σ) (runNum : Int) (c : Conf ε σ ρ) :
    Action → Option (Conf ε σ ρ)
  | .main =>
    match c.main with
    | .start =>
      let now := timeNow c.world
      some { c with world := now.2, info := { start := now.1, end_ := 0, LastRes := none },
                    main := .add }
    | .add =>
      let v := int32 (c.wg + runNum)
      if v < 0 then
        some { c with wg := v, main := .panicked,
                      panics := c.panics ++ [.negativeWaitGroupCounter] }
      else some { c with wg := v, main := .loop 0 }
    | .loop i =>
      if i < runNum then some { c with gs := c.gs ++ [.spawned], main := .loop (i + 1) }
      else some { c with main := .wait }
    | .wait => if c.wg = 0 then some { c with main := .stamp } else none
    | .stamp =>
      let now := timeNow c.world
      some { c with world := now.2, info := { c.info with end_ := now.1 }, main := .returned }
    | .returned => none
    | .panicked => none
  | .go g =>
    match c.gs[g]? with
    | some .spawned =>
      match fn c.world with
      | .ret _ w1 => some { c with world := w1, gs := c.gs.set g .ran, calls := c.calls + 1 }
      | .panic e w1 =>
        some { c with world := w1, gs := c.gs.set g .panicked, calls := c.calls + 1,
                      panics := c.panics ++ [.work e] }
    | some .ran =>
      let v := int32 (c.wg + -1)
      if v < 0 then
        some { c with wg := v, gs := c.gs.set g .panicked,
                      panics := c.panics ++ [.negativeWaitGroupCounter] }
      else some { c with wg := v, gs := c.gs.set g .exited }
    | _ => none

/-- Runs a schedule (a list of actions) from a state; `none` when the schedule asks
for an action that cannot be taken. -/
def run {κ : Type} (step : κ → Action → Option κ) : κ → List Action → Option κ
  | c, [] => some c
  | c, a :: as =>
    match step c a with
    | some c1 => run step c1 as
    | none => none

/-! ### Bookkeeping of the goroutines of `BenchTimeSync` -/

/-- What the calling goroutine has added to the `WaitGroup` counter by the time it
is at a program point (`runNum` once `wg.Add(runNum)` has run). -/
def MainPc.added (runNum : Int) : MainPc → Int
  | .start => 0
  | .add => 0
  | _ => runNum

/-- The number of `go` statements the calling goroutine has executed by the time it
is at a program point. -/
def MainPc.launched (runNum : Int) : MainPc → Int
  | .start => 0
  | .add => 0
  | .loop i => i
  | _ => runNum

/-- The number of steps the calling goroutine itself has left, when nothing blocks
it. -/
def MainPc.stepsLeft (runNum : Int) : MainPc → Nat
  | .start => runNum.toNat + 5
  | .add => runNum.toNat + 4
  | .loop i => (runNum - i).toNat + 3
  | .wait => 2
  | .stamp => 1
  | .returned => 0
  | .panicked => 0

/-- The number of steps left in the whole call: those of the calling goroutine, two
for each goroutine not yet launched or not yet run, one for each goroutine that has
run the work unit and not yet `wg.Done()`. -/
def Conf.stepsLeft {ε σ ρ : Type} (runNum : Int) (c : Conf ε σ ρ) : Nat :=
  c.main.stepsLeft runNum + 2 * (runNum - c.main.launched runNum).toNat
    + 2 * c.gs.count .spawned + c.gs.count .ran

/-- What holds of every state of `BenchTimeSync(fn, runNum)` called in the world `w`
with `0 ≤ runNum < 2^31`, whatever the work unit does. -/
structure BenchTimeSync.Inv {ε σ ρ : Type} (timeNow : σ → Instant × σ)
    (fn : σ → Outcome ε Unit σ) (runNum : Int) (w : σ) (c : Conf ε σ ρ) : Prop where
  /-- the `WaitGroup` counter never went negative -/
  noNeg : GoPanic.negativeWaitGroupCounter ∉ c.panics
  /-- the calling goroutine has not panicked -/
  mainOk : c.main ≠ .panicked
  /-- the loop index stays within `0..runNum` -/
  idx : ∀ i, c.main = .loop i → 0 ≤ i ∧ i ≤ runNum
  /-- one goroutine per `go` statement executed -/
  len : (c.gs.length : Int) = c.main.launched runNum
  /-- the counter is what was added minus one for each goroutine that has exited -/
  wg : c.wg = c.main.added runNum - c.gs.count .exited
  /-- past `wg.Wait()`, every goroutine has exited -/
  joined : c.main = .stamp ∨ c.main = .returned → c.gs.count .exited = c.gs.length
  /-- every goroutine past `spawned` has invoked the work unit once -/
  calls : c.calls + c.gs.count .spawned = c.gs.length
  /-- one panic per goroutine that panicked -/
  panicked : c.panics.length = c.gs.count .panicked
  /-- the field `i.start` is the first reading of the clock -/
  start : c.main ≠ .start → c.info.start = (timeNow w).1
  /-- the field `i.LastRes` is never assigned -/
  lastRes : c.info.LastRes = none
  /-- the world is the one left by the invocations so far, between the two readings
  of the clock -/
  world : c.panics = [] →
    match c.main with
    | .start => c.world = w
    | .returned => ∃ w1, afterCalls fn c.calls (timeNow w).2 = some w1 ∧
        c.world = (timeNow w1).2 ∧ c.info.end_ = (timeNow w1).1
    | _ => afterCalls fn c.calls (timeNow w).2 = some c.world

/-- What holds of every state of `BenchTimeSync(fn, runNum)` called in the world `w`
with a work unit that never panics, whatever `runNum` is. -/
structure BenchTimeSync.Safe {ε σ ρ : Type} (timeNow : σ → Instant × σ)
    (fn : σ → Outcome ε Unit σ) (w : σ) (c : Conf ε σ ρ) : Prop where
  /-- the field `i.LastRes` is never assigned -/
  lastRes : c.info.LastRes = none
  /-- the field `i.start` is the first reading of the clock -/
  start : c.main ≠ .start → c.info.start = (timeNow w).1
  /-- before the first reading nothing has happened -/
  fresh : c.main = .start → c.world = w ∧ c.gs = []
  /-- between the two readings the world is left by invocations run since the
  first -/
  elapsed : c.main ≠ .start → c.main ≠ .returned → Elapses fn (timeNow w).2 c.world
  /-- the field `i.end` is a reading taken after invocations run since the first -/
  stamped : c.main = .returned →
    ∃ w1, Elapses fn (timeNow w).2 w1 ∧ c.info.end_ = (timeNow w1).1

/-! ### A concrete world, used to run the harnesses on explicit inputs -/

/-- A world with a wall clock and a counter. -/
structure Demo where
  clock : Nat
  counter : Nat
  deriving DecidableEq, Repr

/-- A clock whose reading is the world's `clock`; reading it takes one unit. -/
def Demo.timeNow (d : Demo) : Instant × Demo := (d.clock, { d with clock := d.clock + 1 })

/-- A work unit that increments the counter, taking two units of time. -/
def Demo.incr (d : Demo) : Outcome String Unit Demo :=
  .ret () { clock := d.clock + 2, counter := d.counter + 1 }

/-- A work unit that increments the counter and returns its new value. -/
def Demo.next (d : Demo) : Outcome String (Option Nat) Demo :=
  .ret (some (d.counter + 1)) { clock := d.clock + 2, counter := d.counter + 1 }

/-- A work unit that increments the counter and panics on its third invocation. -/
def Demo.failThird (d : Demo) : Outcome String Unit Demo :=
  if d.counter = 2 then .panic "boom" { clock := d.clock + 1, counter := d.counter + 1 }
  else .ret () { clock := d.clock + 2, counter := d.counter + 1 }

/-- A result-returning work unit that increments the counter and panics on its third
invocation. -/
def Demo.failThirdRes (d : Demo) : Outcome String (Option Nat) Demo :=
  if d.counter = 2 then .panic "boom" { clock := d.clock + 1, counter := d.counter + 1 }
  else .ret (some (d.counter + 1)) { clock := d.clock + 2, counter := d.counter + 1 }

/-- A work unit that always panics. -/
def Demo.boom (d : Demo) : Outcome String Unit Demo := .panic "boom" d

/-- What is observed of a state of `BenchTimeSync` in the concrete world. -/
def Conf.view (c : Conf String Demo Nat) :
    Demo × Info Nat × Int × MainPc × List GPc × List (GoPanic String) × Nat :=
  (c.world, c.info, c.wg, c.main, c.gs, c.panics, c.calls)

end pkg

/-! ### `logger/zap.go` -/

namespace logger

/-- The Go struct `Config`. -/
structure Config where
  Level : String
  Format : String
  Prefix : String
  Director : String
  LinkName : String
  ShowLine : Bool
  EncodeLevel : String
  StacktraceKey : String
  LogInConsole : Bool
  deriving DecidableEq, Repr

/-- The level encoders of `zapcore` the code names. -/
inductive LevelEncoder where
  | LowercaseLevelEncoder
  | LowercaseColorLevelEncoder
  | CapitalLevelEncoder
  | CapitalColorLevelEncoder
  deriving DecidableEq, Repr

/-- The time encoder the code names. -/
inductive TimeEncoder where
  | customTimeEncoder
  deriving DecidableEq, Repr

/-- The duration encoder of `zapcore` the code names. -/
inductive DurationEncoder where
  | SecondsDurationEncoder
  deriving DecidableEq, Repr

/-- The caller encoder of `zapcore` the code names. -/
inductive CallerEncoder where
  | FullCallerEncoder
  deriving DecidableEq, Repr

/-- The fields of `zapcore.EncoderConfig` that `getEncoderConfig` sets; a function
field is `none` when `nil`. -/
structure EncoderConfig where
  MessageKey : String
  LevelKey : String
  TimeKey : String
  NameKey : String
  CallerKey : String
  StacktraceKey : String
  LineEnding : String
  EncodeLevel : Option LevelEncoder
  EncodeTime : Option TimeEncoder
  EncodeDuration : Option DurationEncoder
  EncodeCaller : Option CallerEncoder
  deriving DecidableEq, Repr

/-- The zero value of `zapcore.EncoderConfig`: what the named result `config` holds
when the function body starts. -/
def EncoderConfig.zero : EncoderConfig :=
  { MessageKey := "", LevelKey := "", TimeKey := "", NameKey := "", CallerKey := "",
    StacktraceKey := "", LineEnding := "", EncodeLevel := none, EncodeTime := none,
    EncodeDuration := none, EncodeCaller := none }

/-- The constant `zapcore.DefaultLineEnding`. -/
def DefaultLineEnding : String := "\n"

/-- Go `getEncoderConfig(cfg)` of `logger/zap.go`. -/
def getEncoderConfig (cfg : Config) : EncoderConfig :=
  let config : EncoderConfig := EncoderConfig.zero
  let config : EncoderConfig :=
    { MessageKey := "message",
      LevelKey := "level",
      TimeKey := "time",
      NameKey := "logger",
      CallerKey := "caller",
      StacktraceKey := config.StacktraceKey,
      LineEnding := DefaultLineEnding,
      EncodeLevel := some .LowercaseLevelEncoder,
      EncodeTime := some .customTimeEncoder,
      EncodeDuration := some .SecondsDurationEncoder,
      EncodeCaller := some .FullCallerEncoder }
  if cfg.EncodeLevel = "LowercaseLevelEncoder" then
    { config with EncodeLevel := some .LowercaseLevelEncoder }
  else if cfg.EncodeLevel = "LowercaseColorLevelEncoder" then
    { config with EncodeLevel := some .LowercaseColorLevelEncoder }
  else if cfg.EncodeLevel = "CapitalLevelEncoder" then
    { config with EncodeLevel := some .CapitalLevelEncoder }
  else if cfg.EncodeLevel = "CapitalColorLevelEncoder" then
    { config with EncodeLevel := some .CapitalColorLevelEncoder }
  else
    { config with EncodeLevel := some .LowercaseLevelEncoder }

end logger

namespace pkg

/-! ## The sequential harnesses -/

theorem BenchTime_loop_eq {ε σ : Type} (fn : σ → Outcome ε Unit σ) (runNum i : Int)
    (h : Seq σ) :
    BenchTime.loop fn runNum i h =
      if i < runNum then
        match invoke fn i h with
        | .ret _ h1 => BenchTime.loop fn runNum (i + 1) h1
        | .panic e h1 => .panic e h1
      else .ret () h := by
  rw [BenchTime.loop]

theorem BenchTimeAndRes_loop_eq {ε σ ρ : Type} (fn : σ → Outcome ε (Option ρ) σ)
    (runNum i : Int) (res : Option ρ) (h : Seq σ) :
    BenchTimeAndRes.loop fn runNum i res h =
      if i < runNum then
        match invoke fn i h with
        | .ret v h1 =>
          BenchTimeAndRes.loop fn runNum (i + 1) (if i = runNum - 1 then v else res) h1
        | .panic e h1 => .panic e h1
      else .ret res h := by
  rw [BenchTimeAndRes.loop]

theorem BenchTime_loop_done {ε σ : Type} (fn : σ → Outcome ε Unit σ) (runNum i : Int)
    (h : Seq σ) (hi : runNum ≤ i) : BenchTime.loop fn runNum i h = .ret () h := by
  rw [BenchTime_loop_eq, if_neg (by omega)]

theorem BenchTimeAndRes_loop_done {ε σ ρ : Type} (fn : σ → Outcome ε (Option ρ) σ)
    (runNum i : Int) (res : Option ρ) (h : Seq σ) (hi : runNum ≤ i) :
    BenchTimeAndRes.loop fn runNum i res h = .ret res h := by
  rw [BenchTimeAndRes_loop_eq, if_neg (by omega)]

theorem invoke_ret {ε α σ : Type} (fn : σ → Outcome ε α σ) (i : Int) (h : Seq σ) (v : α)
    (w : σ) (hf : fn h.world = .ret v w) : invoke fn i h = .ret v ⟨w, h.trace ++ [i]⟩ := by
  simp [invoke, hf]

theorem invoke_panic {ε α σ : Type} (fn : σ → Outcome ε α σ) (i : Int) (h : Seq σ) (e : ε)
    (w : σ) (hf : fn h.world = .panic e w) :
    invoke fn i h = .panic e ⟨w, h.trace ++ [i]⟩ := by
  simp [invoke, hf]

theorem afterCalls_succ_of_ret {ε α σ : Type} (fn : σ → Outcome ε α σ) (k : Nat) (w w1 : σ)
    (v : α) (hf : fn w = .ret v w1) : afterCalls fn (k + 1) w = afterCalls fn k w1 := by
  simp [afterCalls, hf]

theorem afterCalls_succ_some {ε α σ : Type} (fn : σ → Outcome ε α σ) (k : Nat) (w w2 : σ)
    (hk : afterCalls fn (k + 1) w = some w2) :
    ∃ v w1, fn w = .ret v w1 ∧ afterCalls fn k w1 = some w2 := by
  cases hf : fn w with
  | ret v w1 => exact ⟨v, w1, rfl, by simpa [afterCalls, hf] using hk⟩
  | panic e w1 => simp [afterCalls, hf] at hk

/-- Appending one more returning invocation at the end of `k` invocations. -/
theorem afterCalls_snoc {ε α σ : Type} (fn : σ → Outcome ε α σ) :
    ∀ (k : Nat) (w w1 w2 : σ) (v : α), afterCalls fn k w = some w1 → fn w1 = .ret v w2 →
      afterCalls fn (k + 1) w = some w2 := by
  intro k
  induction k with
  | zero =>
    intro w w1 w2 v h0 hf
    simp only [afterCalls, Option.some.injEq] at h0
    subst h0
    simp [afterCalls, hf]
  | succ k ih =>
    intro w w1 w2 v hk hf
    obtain ⟨v0, w0, hf0, hk0⟩ := afterCalls_succ_some fn k w w1 hk
    rw [afterCalls_succ_of_ret fn (k + 1) w w0 v0 hf0]
    exact ih w0 w1 w2 v hk0 hf

theorem NonFailing.afterCalls {ε α σ : Type} {fn : σ → Outcome ε α σ} (hnf : NonFailing fn) :
    ∀ (k : Nat) (w : σ), ∃ w1, afterCalls fn k w = some w1 := by
  intro k
  induction k with
  | zero => intro w; exact ⟨w, rfl⟩
  | succ k ih =>
    intro w
    obtain ⟨v, w0, hf⟩ := hnf w
    obtain ⟨w1, h1⟩ := ih w0
    exact ⟨w1, by rw [afterCalls_succ_of_ret fn k w w0 v hf, h1]⟩

theorem NonFailing.nthCall {ε α σ : Type} {fn : σ → Outcome ε α σ} (hnf : NonFailing fn) :
    ∀ (k : Nat) (w : σ), ∃ v w1, nthCall fn k w = .ret v w1 := by
  intro k
  induction k with
  | zero => intro w; exact hnf w
  | succ k ih =>
    intro w
    obtain ⟨v, w0, hf⟩ := hnf w
    obtain ⟨v1, w1, h1⟩ := ih w0
    exact ⟨v1, w1, by simp [pkg.nthCall, hf, h1]⟩

/-- The world after `k+1` invocations is the world the last of them returns in. -/
theorem nthCall_afterCalls {ε α σ : Type} (fn : σ → Outcome ε α σ) :
    ∀ (k : Nat) (w w1 : σ) (v : α), nthCall fn k w = .ret v w1 →
      afterCalls fn (k + 1) w = some w1 := by
  intro k
  induction k with
  | zero => intro w w1 v h; simp only [nthCall] at h; simp [afterCalls, h]
  | succ k ih =>
    intro w w1 v h
    cases hf : fn w with
    | ret v0 w0 =>
      rw [afterCalls_succ_of_ret fn (k + 1) w w0 v0 hf]
      apply ih w0 w1 v
      simpa [nthCall, hf] using h
    | panic e w0 => simp [nthCall, hf] at h

/-- The loop of `BenchTime` over returning invocations: it returns, in the world
after them, having invoked the work unit at each index once, in order. -/
theorem BenchTime_loop_ret {ε σ : Type} (fn : σ → Outcome ε Unit σ) (runNum : Int) :
    ∀ (k : Nat) (i : Int) (h : Seq σ) (w1 : σ), (runNum - i).toNat = k → runNum - i ≤ k →
      afterCalls fn k h.world = some w1 →
      BenchTime.loop fn runNum i h = .ret () ⟨w1, h.trace ++ indices i k⟩ := by
  intro k
  induction k with
  | zero =>
    intro i h w1 hk hk2 ha
    simp only [afterCalls, Option.some.injEq] at ha
    rw [BenchTime_loop_done fn runNum i h (by omega)]
    cases h
    simp_all [indices]
  | succ k ih =>
    intro i h w1 hk hk2 ha
    obtain ⟨v, w0, hf, ha0⟩ := afterCalls_succ_some fn k h.world w1 ha
    rw [BenchTime_loop_eq, if_pos (by omega), invoke_ret fn i h v w0 hf]
    simp only
    rw [ih (i + 1) ⟨w0, h.trace ++ [i]⟩ w1 (by omega) (by omega) ha0]
    simp [indices]

/-- The loop of `BenchTime` when the invocation after `k` returning ones panics. -/
theorem BenchTime_loop_panic {ε σ : Type} (fn : σ → Outcome ε Unit σ) (runNum : Int) :
    ∀ (k : Nat) (i : Int) (h : Seq σ) (w1 w2 : σ) (e : ε), i + k < runNum →
      afterCalls fn k h.world = some w1 → fn w1 = .panic e w2 →
      BenchTime.loop fn runNum i h = .panic e ⟨w2, h.trace ++ indices i (k + 1)⟩ := by
  intro k
  induction k with
  | zero =>
    intro i h w1 w2 e hk ha hf
    simp only [afterCalls, Option.some.injEq] at ha
    subst ha
    rw [BenchTime_loop_eq, if_pos (by omega), invoke_panic fn i h e w2 hf]
    simp [indices]
  | succ k ih =>
    intro i h w1 w2 e hk ha hf
    obtain ⟨v, w0, hf0, ha0⟩ := afterCalls_succ_some fn k h.world w1 ha
    rw [BenchTime_loop_eq, if_pos (by omega), invoke_ret fn i h v w0 hf0]
    simp only
    rw [ih (i + 1) ⟨w0, h.trace ++ [i]⟩ w1 w2 e (by push_cast at hk; omega) ha0 hf]
    simp [indices]

/-- The loop of `BenchTimeAndRes` over at least one returning invocation: `res` ends
as the value of the last invocation. -/
theorem BenchTimeAndRes_loop_ret {ε σ ρ : Type} (fn : σ → Outcome ε (Option ρ) σ)
    (runNum : Int) :
    ∀ (k : Nat) (i : Int) (res : Option ρ) (h : Seq σ) (v : Option ρ) (w1 : σ),
      runNum - i = k + 1 → nthCall fn k h.world = .ret v w1 →
      BenchTimeAndRes.loop fn runNum i res h = .ret v ⟨w1, h.trace ++ indices i (k + 1)⟩ := by
  intro k
  induction k with
  | zero =>
    intro i res h v w1 hk hc
    simp only [nthCall] at hc
    rw [BenchTimeAndRes_loop_eq, if_pos (by omega), invoke_ret fn i h v w1 hc]
    simp only
    rw [BenchTimeAndRes_loop_done fn runNum (i + 1) _ _ (by omega),
      if_pos (by push_cast at hk; omega)]
    simp [indices]
  | succ k ih =>
    intro i res h v w1 hk hc
    cases hf : fn h.world with
    | ret v0 w0 =>
      have hc0 : nthCall fn k w0 = .ret v w1 := by simpa [nthCall, hf] using hc
      rw [BenchTimeAndRes_loop_eq, if_pos (by omega), invoke_ret fn i h v0 w0 hf]
      simp only
      rw [ih (i + 1) _ ⟨w0, h.trace ++ [i]⟩ v w1 (by push_cast at hk ⊢; omega) hc0]
      simp [indices]
    | panic e w0 => simp [nthCall, hf] at hc

/-- The loop of `BenchTimeAndRes` when the invocation after `k` returning ones
panics. -/
theorem BenchTimeAndRes_loop_panic {ε σ ρ : Type} (fn : σ → Outcome ε (Option ρ) σ)
    (runNum : Int) :
    ∀ (k : Nat) (i : Int) (res : Option ρ) (h : Seq σ) (w1 w2 : σ) (e : ε), i + k < runNum →
      afterCalls fn k h.world = some w1 → fn w1 = .panic e w2 →
      BenchTimeAndRes.loop fn runNum i res h =
        .panic e ⟨w2, h.trace ++ indices i (k + 1)⟩ := by
  intro k
  induction k with
  | zero =>
    intro i res h w1 w2 e hk ha hf
    simp only [afterCalls, Option.some.injEq] at ha
    subst ha
    rw [BenchTimeAndRes_loop_eq, if_pos (by omega), invoke_panic fn i h e w2 hf]
    simp [indices]
  | succ k ih =>
    intro i res h w1 w2 e hk ha hf
    obtain ⟨v, w0, hf0, ha0⟩ := afterCalls_succ_some fn k h.world w1 ha
    rw [BenchTimeAndRes_loop_eq, if_pos (by omega), invoke_ret fn i h v w0 hf0]
    simp only
    rw [ih (i + 1) _ ⟨w0, h.trace ++ [i]⟩ w1 w2 e (by push_cast at hk; omega) ha0 hf]
    simp [indices]

/-! ## The concurrent harness -/

theorem benchmark.TimeSync.step_eq {ε σ ρ : Type} :
    @benchmark.TimeSync.step ε σ ρ = @BenchTimeSync.step ε σ ρ := by
  funext timeNow fn runNum c a
  cases a <;> rfl

theorem int32_of_range (x : Int) (h0 : -2147483648 ≤ x) (h1 : x < 2147483648) :
    int32 x = x := by
  unfold int32
  omega

/-- Replacing the entry `x` at position `g` by `y` moves one occurrence from `x`
to `y`. -/
theorem count_set_of_getElem? {α : Type} [DecidableEq α] (b y : α) :
    ∀ (l : List α) (g : Nat) (x : α), l[g]? = some x →
      (l.set g y).count b + (if x = b then 1 else 0) = l.count b + (if y = b then 1 else 0) := by
  intro l
  induction l with
  | nil => intro g x h; simp at h
  | cons a l ih =>
    intro g x h
    cases g with
    | zero =>
      simp only [List.getElem?_cons_zero, Option.some.injEq] at h
      subst h
      simp only [List.set_cons_zero, List.count_cons, beq_iff_eq]
      omega
    | succ g =>
      simp only [List.getElem?_cons_succ] at h
      have := ih g x h
      simp only [List.set_cons_succ, List.count_cons, beq_iff_eq]
      omega

theorem count_lt_length_of_getElem? {α : Type} [DecidableEq α] (l : List α) (g : Nat)
    (x b : α) (h : l[g]? = some x) (hx : x ≠ b) : l.count b < l.length := by
  rcases Nat.lt_or_ge (l.count b) l.length with hlt | hge
  · exact hlt
  · have heq : l.count b = l.length := Nat.le_antisymm (List.count_le_length _ _) hge
    exact absurd (List.count_eq_length.mp heq x (List.getElem?_mem h)).symm hx

theorem BenchTimeSync.Inv.init {ε σ ρ : Type} (timeNow : σ → Instant × σ)
    (fn : σ → Outcome ε Unit σ) (runNum : Int) (w : σ) :
    BenchTimeSync.Inv timeNow fn runNum w (Conf.init w : Conf ε σ ρ) := by
  constructor <;> simp [Conf.init, MainPc.launched, MainPc.added]

/-- A step of the calling goroutine keeps the invariant and uses up a step. -/
theorem BenchTimeSync.Inv.step_main {ε σ ρ : Type} (timeNow : σ → Instant × σ)
    (fn : σ → Outcome ε Unit σ) (runNum : Int) (w : σ) (hn : 0 ≤ runNum)
    (hn2 : runNum < 2147483648)
    (c c1 : Conf ε σ ρ) (hinv : BenchTimeSync.Inv timeNow fn runNum w c)
    (hstep : BenchTimeSync.step timeNow fn runNum c .main = some c1) :
    BenchTimeSync.Inv timeNow fn runNum w c1 ∧ c1.stepsLeft runNum < c.stepsLeft runNum := by
  obtain ⟨noNeg, mainOk, idx, len, wg, joined, calls, panicked, start, lastRes, world⟩ := hinv
  obtain ⟨cworld, cinfo, cwg, cmain, cgs, cpanics, ccalls⟩ := c
  simp only [BenchTimeSync.step] at hstep
  simp only at noNeg mainOk idx len wg joined calls panicked start lastRes world
  cases cmain with
  | start =>
    simp only [Option.some.injEq] at hstep
    subst hstep
    simp only [MainPc.launched, Nat.cast_eq_zero, List.length_eq_zero] at len
    subst len
    simp only [List.count_nil, List.length_eq_zero] at panicked
    subst panicked
    have world := world rfl
    simp only at world
    subst world
    simp only [List.count_nil, List.length_nil, add_zero] at calls
    subst calls
    refine ⟨⟨by simp, by simp, by simp, by simp [MainPc.launched],
      by simpa [MainPc.added] using wg,
      by simp, by simp, by simp, by simp, by simp, by simp [afterCalls]⟩, ?_⟩
    simp [Conf.stepsLeft, MainPc.stepsLeft, MainPc.launched]
  | add =>
    simp only [MainPc.launched, Nat.cast_eq_zero, List.length_eq_zero] at len
    subst len
    simp only [MainPc.added, List.count_nil, Nat.cast_zero, sub_zero] at wg
    subst wg
    simp only [zero_add, int32_of_range runNum (by omega) hn2] at hstep
    rw [if_neg (by omega)] at hstep
    simp only [Option.some.injEq] at hstep
    subst hstep
    simp only [List.count_nil, List.length_nil, add_zero] at calls
    subst calls
    refine ⟨⟨noNeg, by simp, ?_, by simp [MainPc.launched], by simp [MainPc.added],
      by simp, by simp, panicked, ?_, lastRes, ?_⟩, ?_⟩
    · intro i hi
      simp only [MainPc.loop.injEq] at hi
      subst hi
      exact ⟨le_refl _, hn⟩
    · intro _
      exact start (by simp)
    · intro hp
      simpa using world hp
    · simp [Conf.stepsLeft, MainPc.stepsLeft, MainPc.launched]
  | loop i =>
    obtain ⟨hi0, hin⟩ := idx i rfl
    simp only [MainPc.launched] at len
    simp only [MainPc.added] at wg
    simp only at hstep
    by_cases hlt : i < runNum
    · rw [if_pos hlt] at hstep
      simp only [Option.some.injEq] at hstep
      subst hstep
      refine ⟨⟨noNeg, by simp, ?_, ?_, ?_, by simp, ?_, ?_, ?_, lastRes, ?_⟩, ?_⟩
      · intro j hj
        simp only [MainPc.loop.injEq] at hj
        subst hj
        omega
      · simp only [List.length_append, List.length_singleton, MainPc.launched]
        push_cast
        omega
      · simp [MainPc.added, List.count_append, wg]
      · simp only [List.count_append, List.length_append, List.length_singleton]
        simp only [List.count_cons, List.count_nil, beq_self_eq_true, if_true]
        omega
      · simpa [List.count_append] using panicked
      · intro _
        exact start (by simp)
      · intro hp
        simpa using world hp
      · simp only [Conf.stepsLeft, MainPc.stepsLeft, MainPc.launched, List.count_append]
        simp only [List.count_cons, List.count_nil, beq_self_eq_true, if_true]
        simp
        omega
    · rw [if_neg hlt] at hstep
      simp only [Option.some.injEq] at hstep
      subst hstep
      have hi : i = runNum := by omega
      subst hi
      refine ⟨⟨noNeg, by simp, by simp, by simpa [MainPc.launched] using len,
        by simpa [MainPc.added] using wg, by simp, calls, panicked, ?_, lastRes, ?_⟩, ?_⟩
      · intro _
        exact start (by simp)
      · intro hp
        simpa using world hp
      · simp [Conf.stepsLeft, MainPc.stepsLeft, MainPc.launched]
  | wait =>
    simp only [MainPc.launched] at len
    simp only [MainPc.added] at wg
    simp only at hstep
    by_cases h0 : cwg = 0
    · rw [if_pos h0] at hstep
      simp only [Option.some.injEq] at hstep
      subst hstep
      refine ⟨⟨noNeg, by simp, by simp, by simpa [MainPc.launched] using len,
        by simpa [MainPc.added] using wg, ?_, calls, panicked, ?_, lastRes, ?_⟩, ?_⟩
      · intro _
        simp only
        omega
      · intro _
        exact start (by simp)
      · intro hp
        simpa using world hp
      · simp [Conf.stepsLeft, MainPc.stepsLeft, MainPc.launched]
    · rw [if_neg h0] at hstep
      simp at hstep
  | stamp =>
    simp only [Option.some.injEq] at hstep
    subst hstep
    simp only [MainPc.launched] at len
    simp only [MainPc.added] at wg
    refine ⟨⟨noNeg, by simp, by simp, by simpa [MainPc.launched] using len,
      by simpa [MainPc.added] using wg, ?_, calls, panicked, ?_, lastRes, ?_⟩, ?_⟩
    · intro _
      exact joined (Or.inl rfl)
    · intro _
      exact start (by simp)
    · intro hp
      exact ⟨cworld, by simpa using world hp, rfl, rfl⟩
    · simp [Conf.stepsLeft, MainPc.stepsLeft, MainPc.launched]
  | returned => simp at hstep
  | panicked => simp at hstep

/-- A step of a spawned goroutine keeps the invariant and uses up a step. -/
theorem BenchTimeSync.Inv.step_go {ε σ ρ : Type} (timeNow : σ → Instant × σ)
    (fn : σ → Outcome ε Unit σ) (runNum : Int) (w : σ) (hn2 : runNum < 2147483648)
    (g : Nat) (c c1 : Conf ε σ ρ) (hinv : BenchTimeSync.Inv timeNow fn runNum w c)
    (hstep : BenchTimeSync.step timeNow fn runNum c (.go g) = some c1) :
    BenchTimeSync.Inv timeNow fn runNum w c1 ∧ c1.stepsLeft runNum < c.stepsLeft runNum := by
  obtain ⟨noNeg, mainOk, idx, len, wg, joined, calls, panicked, start, lastRes, world⟩ := hinv
  obtain ⟨cworld, cinfo, cwg, cmain, cgs, cpanics, ccalls⟩ := c
  simp only [BenchTimeSync.step] at hstep
  simp only at noNeg mainOk idx len wg joined calls panicked start lastRes world
  cases hg : cgs[g]? with
  | none => simp [hg] at hstep
  | some x =>
    have hsp := count_set_of_getElem? GPc.spawned
    have hra := count_set_of_getElem? GPc.ran
    have hex := count_set_of_getElem? GPc.exited
    have hpa := count_set_of_getElem? GPc.panicked
    have hnotjoined : x ≠ .exited → cmain ≠ .stamp ∧ cmain ≠ .returned := by
      intro hx
      have hlt := count_lt_length_of_getElem? cgs g x .exited hg hx
      constructor
      · intro h
        have := joined (Or.inl h)
        omega
      · intro h
        have := joined (Or.inr h)
        omega
    have hnotstart : cmain ≠ .start := by
      intro h
      subst h
      simp only [MainPc.launched, Nat.cast_eq_zero, List.length_eq_zero] at len
      subst len
      simp at hg
    cases x with
    | spawned =>
      obtain ⟨hns, hnr⟩ := hnotjoined (by decide)
      simp only [hg] at hstep
      cases hf : fn cworld with
      | ret v w1 =>
        simp only [hf, Option.some.injEq] at hstep
        subst hstep
        have h1 := hsp .ran cgs g .spawned hg
        have h2 := hra .ran cgs g .spawned hg
        have h3 := hex .ran cgs g .spawned hg
        have h4 := hpa .ran cgs g .spawned hg
        simp only [reduceCtorEq, if_false, if_true, add_zero] at h1 h2 h3 h4
        refine ⟨⟨noNeg, mainOk, idx, by simpa using len, by simp only [h3]; exact wg, ?_, ?_,
          ?_, start, lastRes, ?_⟩, ?_⟩
        · intro h
          rcases h with h | h
          · exact absurd h hns
          · exact absurd h hnr
        · simp only [List.length_set]
          omega
        · simp only [h4]
          exact panicked
        · intro hp
          have world1 : afterCalls fn ccalls (timeNow w).2 = some cworld := by
            have hw := world hp
            cases cmain with
            | start => exact absurd rfl hnotstart
            | returned => exact absurd rfl hnr
            | _ => exact hw
          have hw := afterCalls_snoc fn ccalls (timeNow w).2 cworld w1 v world1 hf
          cases cmain with
          | start => exact absurd rfl hnotstart
          | returned => exact absurd rfl hnr
          | _ => exact hw
        · simp only [Conf.stepsLeft]
          omega
      | panic e w1 =>
        simp only [hf, Option.some.injEq] at hstep
        subst hstep
        have h1 := hsp .panicked cgs g .spawned hg
        have h2 := hra .panicked cgs g .spawned hg
        have h3 := hex .panicked cgs g .spawned hg
        have h4 := hpa .panicked cgs g .spawned hg
        simp only [reduceCtorEq, if_false, if_true, add_zero] at h1 h2 h3 h4
        refine ⟨⟨?_, mainOk, idx, by simpa using len, by simp only [h3]; exact wg, ?_, ?_,
          ?_, start, lastRes, ?_⟩, ?_⟩
        · simpa using noNeg
        · intro h
          rcases h with h | h
          · exact absurd h hns
          · exact absurd h hnr
        · simp only [List.length_set]
          omega
        · simp only [List.length_append, List.length_singleton, h4]
          omega
        · intro h
          simp at h
        · simp only [Conf.stepsLeft]
          omega
    | ran =>
      obtain ⟨hns, hnr⟩ := hnotjoined (by decide)
      have hlt := count_lt_length_of_getElem? cgs g .ran .exited hg (by decide)
      have hadded : cmain.added runNum = runNum := by
        cases cmain with
        | add =>
          simp only [MainPc.launched, Nat.cast_eq_zero, List.length_eq_zero] at len
          subst len
          simp at hg
        | start => exact absurd rfl hnotstart
        | _ => rfl
      have hlaunched : cmain.launched runNum ≤ runNum := by
        cases cmain with
        | loop i => exact (idx i rfl).2
        | start => exact absurd rfl hnotstart
        | add =>
          simp only [MainPc.launched, Nat.cast_eq_zero, List.length_eq_zero] at len
          subst len
          simp at hg
        | _ => exact le_refl _
      simp only [hg] at hstep
      have h32 : int32 (cwg + -1) = cwg + -1 := int32_of_range _ (by omega) (by omega)
      simp only [h32] at hstep
      rw [if_neg (by omega)] at hstep
      simp only [Option.some.injEq] at hstep
      subst hstep
      have h1 := hsp .exited cgs g .ran hg
      have h2 := hra .exited cgs g .ran hg
      have h3 := hex .exited cgs g .ran hg
      have h4 := hpa .exited cgs g .ran hg
      simp only [reduceCtorEq, if_false, if_true, add_zero] at h1 h2 h3 h4
      refine ⟨⟨noNeg, mainOk, idx, by simpa using len, ?_, ?_, ?_, ?_, start, lastRes, ?_⟩, ?_⟩
      · simp only [h3]
        push_cast
        omega
      · intro h
        rcases h with h | h
        · exact absurd h hns
        · exact absurd h hnr
      · simp only [List.length_set, h1]
        exact calls
      · simp only [h4]
        exact panicked
      · intro hp
        exact world hp
      · simp only [Conf.stepsLeft]
        omega
    | exited => simp [hg] at hstep
    | panicked => simp [hg] at hstep

/-- Every step keeps the invariant and uses up a step. -/
theorem BenchTimeSync.Inv.step {ε σ ρ : Type} (timeNow : σ → Instant × σ)
    (fn : σ → Outcome ε Unit σ) (runNum : Int) (w : σ) (hn : 0 ≤ runNum)
    (hn2 : runNum < 2147483648) (a : Action)
    (c c1 : Conf ε σ ρ) (hinv : BenchTimeSync.Inv timeNow fn runNum w c)
    (hstep : BenchTimeSync.step timeNow fn runNum c a = some c1) :
    BenchTimeSync.Inv timeNow fn runNum w c1 ∧ c1.stepsLeft runNum < c.stepsLeft runNum := by
  cases a with
  | main => exact BenchTimeSync.Inv.step_main timeNow fn runNum w hn hn2 c c1 hinv hstep
  | go g => exact BenchTimeSync.Inv.step_go timeNow fn runNum w hn2 g c c1 hinv hstep

/-- A schedule keeps the invariant and uses up one step per action. -/
theorem BenchTimeSync.Inv.run {ε σ ρ : Type} (timeNow : σ → Instant × σ)
    (fn : σ → Outcome ε Unit σ) (runNum : Int) (w : σ) (hn : 0 ≤ runNum)
    (hn2 : runNum < 2147483648) :
    ∀ (sched : List Action) (c c1 : Conf ε σ ρ), BenchTimeSync.Inv timeNow fn runNum w c →
      pkg.run (BenchTimeSync.step timeNow fn runNum) c sched = some c1 →
      BenchTimeSync.Inv timeNow fn runNum w c1 ∧
        c1.stepsLeft runNum + sched.length ≤ c.stepsLeft runNum := by
  intro sched
  induction sched with
  | nil =>
    intro c c1 hinv hrun
    simp only [pkg.run, Option.some.injEq] at hrun
    subst hrun
    exact ⟨hinv, by simp⟩
  | cons a as ih =>
    intro c c1 hinv hrun
    cases hs : BenchTimeSync.step timeNow fn runNum c a with
    | none => simp [pkg.run, hs] at hrun
    | some c2 =>
      simp only [pkg.run, hs] at hrun
      obtain ⟨hinv2, hlt⟩ := BenchTimeSync.Inv.step timeNow fn runNum w hn hn2 a c c2 hinv hs
      obtain ⟨hinv1, hle⟩ := ih c2 c1 hinv2 hrun
      refine ⟨hinv1, ?_⟩
      simp only [List.length_cons]
      omega

/-- A step raises at most one panic: that of `wg.Add`, or that of the work unit. -/
theorem BenchTimeSync.step_panics {ε σ ρ : Type} (timeNow : σ → Instant × σ)
    (fn : σ → Outcome ε Unit σ) (runNum : Int) (a : Action) (c c1 : Conf ε σ ρ)
    (hstep : BenchTimeSync.step timeNow fn runNum c a = some c1) :
    c1.panics = c.panics ∨ c1.panics = c.panics ++ [.negativeWaitGroupCounter] ∨
      ∃ e w1, fn c.world = .panic e w1 ∧ c1.panics = c.panics ++ [.work e] := by
  obtain ⟨cworld, cinfo, cwg, cmain, cgs, cpanics, ccalls⟩ := c
  cases a with
  | main =>
    simp only [BenchTimeSync.step] at hstep
    cases cmain with
    | start => simp only [Option.some.injEq] at hstep; subst hstep; simp
    | add =>
      simp only at hstep
      split at hstep <;> (simp only [Option.some.injEq] at hstep; subst hstep; simp)
    | loop i =>
      simp only at hstep
      split at hstep <;> (simp only [Option.some.injEq] at hstep; subst hstep; simp)
    | wait =>
      simp only at hstep
      split at hstep
      · simp only [Option.some.injEq] at hstep; subst hstep; simp
      · simp at hstep
    | stamp => simp only [Option.some.injEq] at hstep; subst hstep; simp
    | returned => simp at hstep
    | panicked => simp at hstep
  | go g =>
    simp only [BenchTimeSync.step] at hstep
    cases hg : cgs[g]? with
    | none => simp [hg] at hstep
    | some x =>
      cases x with
      | spawned =>
        simp only [hg] at hstep
        cases hf : fn cworld with
        | ret v w1 => simp only [hf, Option.some.injEq] at hstep; subst hstep; simp
        | panic e w1 => simp only [hf, Option.some.injEq] at hstep; subst hstep; simp
      | ran =>
        simp only [hg] at hstep
        split at hstep <;> (simp only [Option.some.injEq] at hstep; subst hstep; simp)
      | exited => simp [hg] at hstep
      | panicked => simp [hg] at hstep

/-- Panics are never forgotten. -/
theorem BenchTimeSync.run_panics_length {ε σ ρ : Type} (timeNow : σ → Instant × σ)
    (fn : σ → Outcome ε Unit σ) (runNum : Int) :
    ∀ (sched : List Action) (c c1 : Conf ε σ ρ),
      pkg.run (BenchTimeSync.step timeNow fn runNum) c sched = some c1 →
      c.panics.length ≤ c1.panics.length := by
  intro sched
  induction sched with
  | nil =>
    intro c c1 hrun
    simp only [pkg.run, Option.some.injEq] at hrun
    subst hrun
    exact le_refl _
  | cons a as ih =>
    intro c c1 hrun
    cases hs : BenchTimeSync.step timeNow fn runNum c a with
    | none => simp [pkg.run, hs] at hrun
    | some c2 =>
      simp only [pkg.run, hs] at hrun
      have h2 := ih c2 c1 hrun
      rcases BenchTimeSync.step_panics timeNow fn runNum a c c2 hs with h | h | ⟨e, w1, _, h⟩
      · rw [h] at h2; exact h2
      · rw [h, List.length_append, List.length_singleton] at h2; omega
      · rw [h, List.length_append, List.length_singleton] at h2; omega

/-- With a work unit that never panics and `0 ≤ runNum < 2^31`, no step panics. -/
theorem BenchTimeSync.step_no_panic {ε σ ρ : Type} (timeNow : σ → Instant × σ)
    (fn : σ → Outcome ε Unit σ) (runNum : Int) (w : σ) (hn : 0 ≤ runNum)
    (hn2 : runNum < 2147483648) (hnf : NonFailing fn) (a : Action) (c c1 : Conf ε σ ρ)
    (hinv : BenchTimeSync.Inv timeNow fn runNum w c) (hc : c.panics = [])
    (hstep : BenchTimeSync.step timeNow fn runNum c a = some c1) : c1.panics = [] := by
  have hinv1 := (BenchTimeSync.Inv.step timeNow fn runNum w hn hn2 a c c1 hinv hstep).1
  rcases BenchTimeSync.step_panics timeNow fn runNum a c c1 hstep with h | h | ⟨e, w1, hf, _⟩
  · rw [h, hc]
  · exact absurd (by rw [h]; simp) hinv1.noNeg
  · obtain ⟨v, w2, hret⟩ := hnf c.world
    rw [hret] at hf
    cases hf

/-- With a work unit that never panics and `0 ≤ runNum < 2^31`, no schedule
panics. -/
theorem BenchTimeSync.run_no_panic {ε σ ρ : Type} (timeNow : σ → Instant × σ)
    (fn : σ → Outcome ε Unit σ) (runNum : Int) (w : σ) (hn : 0 ≤ runNum)
    (hn2 : runNum < 2147483648) (hnf : NonFailing fn) :
    ∀ (sched : List Action) (c c1 : Conf ε σ ρ), BenchTimeSync.Inv timeNow fn runNum w c →
      c.panics = [] → pkg.run (BenchTimeSync.step timeNow fn runNum) c sched = some c1 →
      c1.panics = [] := by
  intro sched
  induction sched with
  | nil =>
    intro c c1 _ hc hrun
    simp only [pkg.run, Option.some.injEq] at hrun
    subst hrun
    exact hc
  | cons a as ih =>
    intro c c1 hinv hc hrun
    cases hs : BenchTimeSync.step timeNow fn runNum c a with
    | none => simp [pkg.run, hs] at hrun
    | some c2 =>
      simp only [pkg.run, hs] at hrun
      exact ih c2 c1 (BenchTimeSync.Inv.step timeNow fn runNum w hn hn2 a c c2 hinv hs).1
        (BenchTimeSync.step_no_panic timeNow fn runNum w hn hn2 hnf a c c2 hinv hc hs) hrun

/-- Progress: a call in which nothing has panicked and that has not returned can
take a step; in particular `wg.Wait()` is never blocked for ever. -/
theorem BenchTimeSync.Inv.progress {ε σ ρ : Type} (timeNow : σ → Instant × σ)
    (fn : σ → Outcome ε Unit σ) (runNum : Int) (w : σ) (c : Conf ε σ ρ)
    (hinv : BenchTimeSync.Inv timeNow fn runNum w c) (hc : c.panics = [])
    (hm : c.main ≠ .returned) :
    ∃ a c1, BenchTimeSync.step timeNow fn runNum c a = some c1 := by
  obtain ⟨noNeg, mainOk, idx, len, wg, joined, calls, panicked, start, lastRes, world⟩ := hinv
  obtain ⟨cworld, cinfo, cwg, cmain, cgs, cpanics, ccalls⟩ := c
  simp only at hc hm noNeg mainOk idx len wg joined calls panicked start lastRes world
  subst hc
  simp only [List.length_nil] at panicked
  cases cmain with
  | start => exact ⟨.main, _, by simp only [BenchTimeSync.step]; rfl⟩
  | add =>
    by_cases h : int32 (cwg + runNum) < 0
    · exact ⟨.main, _, by simp only [BenchTimeSync.step]; simp only [if_pos h]; rfl⟩
    · exact ⟨.main, _, by simp only [BenchTimeSync.step]; simp only [if_neg h]; rfl⟩
  | loop i =>
    by_cases h : i < runNum
    · exact ⟨.main, _, by simp only [BenchTimeSync.step]; simp only [if_pos h]; rfl⟩
    · exact ⟨.main, _, by simp only [BenchTimeSync.step]; simp only [if_neg h]; rfl⟩
  | stamp => exact ⟨.main, _, by simp only [BenchTimeSync.step]; rfl⟩
  | returned => exact absurd rfl hm
  | panicked => exact absurd rfl mainOk
  | wait =>
    by_cases h : cwg = 0
    · exact ⟨.main, _, by simp only [BenchTimeSync.step]; simp only [if_pos h]; rfl⟩
    · simp only [MainPc.added] at wg
      simp only [MainPc.launched] at len
      have hne : cgs.count .exited ≠ cgs.length := by omega
      have hex : ∃ x, x ∈ cgs ∧ x ≠ GPc.exited := by
        by_contra hall
        push_neg at hall
        exact hne (List.count_eq_length.mpr (fun b hb => (hall b hb).symm))
      obtain ⟨x, hx, hxe⟩ := hex
      obtain ⟨g, hg⟩ := List.mem_iff_getElem?.mp hx
      cases x with
      | exited => exact absurd rfl hxe
      | panicked =>
        have := List.count_pos_iff.mpr hx
        omega
      | spawned =>
        cases hf : fn cworld with
        | ret v w1 => exact ⟨.go g, _, by simp only [BenchTimeSync.step, hg, hf]; rfl⟩
        | panic e w1 => exact ⟨.go g, _, by simp only [BenchTimeSync.step, hg, hf]; rfl⟩
      | ran =>
        by_cases h1 : int32 (cwg + -1) < 0
        · exact ⟨.go g, _, by simp only [BenchTimeSync.step, hg]; simp only [if_pos h1]; rfl⟩
        · exact ⟨.go g, _, by simp only [BenchTimeSync.step, hg]; simp only [if_neg h1]; rfl⟩

theorem run_append {κ : Type} (step : κ → Action → Option κ) :
    ∀ (s1 s2 : List Action) (c c1 : κ), run step c s1 = some c1 →
      run step c (s1 ++ s2) = run step c1 s2 := by
  intro s1
  induction s1 with
  | nil =>
    intro s2 c c1 h
    simp only [run, Option.some.injEq] at h
    subst h
    rfl
  | cons a as ih =>
    intro s2 c c1 h
    cases hs : step c a with
    | none => simp [run, hs] at h
    | some c2 =>
      simp only [run, hs] at h
      simp only [List.cons_append, run, hs]
      exact ih s2 c2 c1 h

/-- With a work unit that never panics and `0 ≤ runNum < 2^31`, the call can always
be run on to its return. -/
theorem BenchTimeSync.Inv.exists_return {ε σ ρ : Type} (timeNow : σ → Instant × σ)
    (fn : σ → Outcome ε Unit σ) (runNum : Int) (w : σ) (hn : 0 ≤ runNum)
    (hn2 : runNum < 2147483648) (hnf : NonFailing fn) :
    ∀ (k : Nat) (c : Conf ε σ ρ), c.stepsLeft runNum ≤ k →
      BenchTimeSync.Inv timeNow fn runNum w c → c.panics = [] →
      ∃ sched c1, pkg.run (BenchTimeSync.step timeNow fn runNum) c sched = some c1 ∧
        c1.main = .returned := by
  intro k
  induction k with
  | zero =>
    intro c hk hinv hc
    by_cases hm : c.main = .returned
    · exact ⟨[], c, rfl, hm⟩
    · obtain ⟨a, c1, hs⟩ := BenchTimeSync.Inv.progress timeNow fn runNum w c hinv hc hm
      have := (BenchTimeSync.Inv.step timeNow fn runNum w hn hn2 a c c1 hinv hs).2
      omega
  | succ k ih =>
    intro c hk hinv hc
    by_cases hm : c.main = .returned
    · exact ⟨[], c, rfl, hm⟩
    · obtain ⟨a, c1, hs⟩ := BenchTimeSync.Inv.progress timeNow fn runNum w c hinv hc hm
      obtain ⟨hinv1, hlt⟩ := BenchTimeSync.Inv.step timeNow fn runNum w hn hn2 a c c1 hinv hs
      have hc1 := BenchTimeSync.step_no_panic timeNow fn runNum w hn hn2 hnf a c c1 hinv hc hs
      obtain ⟨sched, c2, hrun, hret⟩ := ih c1 (by omega) hinv1 hc1
      exact ⟨a :: sched, c2, by simp only [pkg.run, hs]; exact hrun, hret⟩

/-! ## The concurrent harness at its return, and outside `0 ≤ runNum < 2^31` -/

theorem run_invariant {κ : Type} (step : κ → Action → Option κ) (P : κ → Prop)
    (hP : ∀ c a c1, P c → step c a = some c1 → P c1) :
    ∀ (sched : List Action) (c c1 : κ), P c → run step c sched = some c1 → P c1 := by
  intro sched
  induction sched with
  | nil =>
    intro c c1 hc hrun
    simp only [run, Option.some.injEq] at hrun
    subst hrun
    exact hc
  | cons a as ih =>
    intro c c1 hc hrun
    cases hs : step c a with
    | none => simp [run, hs] at hrun
    | some c2 =>
      simp only [run, hs] at hrun
      exact ih c2 c1 (hP c a c2 hc hs) hrun

/-- Both packages run the same steps. -/
theorem BenchTimeSync.step_of_either {ε σ ρ : Type} {timeNow : σ → Instant × σ}
    {fn : σ → Outcome ε Unit σ} {runNum : Int} {step : Conf ε σ ρ → Action → Option (Conf ε σ ρ)}
    (h : step = BenchTimeSync.step timeNow fn runNum ∨
      step = benchmark.TimeSync.step timeNow fn runNum) :
    step = BenchTimeSync.step timeNow fn runNum := by
  rcases h with h | h
  · exact h
  · rw [h, benchmark.TimeSync.step_eq]

/-- Past `wg.Wait()`, exactly `runNum` goroutines have been launched, each has
invoked the work unit once and has exited. -/
theorem BenchTimeSync.Inv.joined_all {ε σ ρ : Type} {timeNow : σ → Instant × σ}
    {fn : σ → Outcome ε Unit σ} {runNum : Int} {w : σ} {c : Conf ε σ ρ}
    (hinv : BenchTimeSync.Inv timeNow fn runNum w c)
    (hm : c.main = .stamp ∨ c.main = .returned) :
    c.gs = List.replicate runNum.toNat .exited ∧ c.calls = runNum.toNat := by
  have hj := hinv.joined hm
  have hlen : (c.gs.length : Int) = runNum := by
    have := hinv.len
    rcases hm with h | h <;> simpa [h, MainPc.launched] using this
  have hall : ∀ b ∈ c.gs, b = GPc.exited := fun b hb => (List.count_eq_length.mp hj b hb).symm
  have hsp : c.gs.count .spawned = 0 := by
    rw [List.count_eq_zero]
    intro hmem
    exact absurd (hall _ hmem) (by decide)
  have hc := hinv.calls
  refine ⟨List.eq_replicate_iff.mpr ⟨by omega, hall⟩, by omega⟩

/-- Past `wg.Wait()` no goroutine has panicked. -/
theorem BenchTimeSync.Inv.joined_no_panic {ε σ ρ : Type} {timeNow : σ → Instant × σ}
    {fn : σ → Outcome ε Unit σ} {runNum : Int} {w : σ} {c : Conf ε σ ρ}
    (hinv : BenchTimeSync.Inv timeNow fn runNum w c)
    (hm : c.main = .stamp ∨ c.main = .returned) : c.panics = [] := by
  have hgs := (hinv.joined_all hm).1
  have hp := hinv.panicked
  rw [hgs, List.count_replicate] at hp
  simp only [beq_iff_eq, reduceCtorEq, if_false] at hp
  exact List.length_eq_zero.mp hp

/-- Once a goroutine has panicked, the `WaitGroup` counter is above zero and the
calling goroutine is not past `wg.Wait()`. -/
theorem BenchTimeSync.Inv.blocked_of_panic {ε σ ρ : Type} {timeNow : σ → Instant × σ}
    {fn : σ → Outcome ε Unit σ} {runNum : Int} {w : σ} {c : Conf ε σ ρ}
    (hinv : BenchTimeSync.Inv timeNow fn runNum w c) (hp : c.panics ≠ []) :
    0 < c.wg ∧ c.main ≠ .stamp ∧ c.main ≠ .returned := by
  have hns : c.main ≠ .stamp := fun h => hp (hinv.joined_no_panic (Or.inl h))
  have hnr : c.main ≠ .returned := fun h => hp (hinv.joined_no_panic (Or.inr h))
  refine ⟨?_, hns, hnr⟩
  have hcount : 0 < c.gs.count .panicked := by
    rw [← hinv.panicked]
    exact List.length_pos.mpr hp
  obtain ⟨g, hg⟩ := List.mem_iff_getElem?.mp (List.count_pos_iff.mp hcount)
  have hlt := count_lt_length_of_getElem? c.gs g .panicked .exited hg (by decide)
  have hlen := hinv.len
  have hwg := hinv.wg
  have hok := hinv.mainOk
  have hidx := hinv.idx
  cases hm : c.main with
  | start =>
    rw [hm] at hlen
    simp only [MainPc.launched] at hlen
    omega
  | add =>
    rw [hm] at hlen
    simp only [MainPc.launched] at hlen
    omega
  | loop i =>
    rw [hm] at hlen hwg
    simp only [MainPc.launched] at hlen
    simp only [MainPc.added] at hwg
    have := (hidx i hm).2
    omega
  | wait =>
    rw [hm] at hlen hwg
    simp only [MainPc.launched] at hlen
    simp only [MainPc.added] at hwg
    omega
  | stamp => exact absurd hm hns
  | returned => exact absurd hm hnr
  | panicked => exact absurd hm hok

/-- The steps of the whole call, counted from its first state. -/
theorem Conf.stepsLeft_init {ε σ ρ : Type} (runNum : Int) (w : σ) :
    (Conf.init w : Conf ε σ ρ).stepsLeft runNum = 3 * runNum.toNat + 5 := by
  simp only [Conf.stepsLeft, Conf.init, MainPc.stepsLeft, MainPc.launched, sub_zero,
    List.count_nil]
  omega

/-- What a returned call of `BenchTimeSync` has done. -/
theorem BenchTimeSync.Inv.at_return {ε σ ρ : Type} {timeNow : σ → Instant × σ}
    {fn : σ → Outcome ε Unit σ} {runNum : Int} {w : σ} {c : Conf ε σ ρ}
    (hinv : BenchTimeSync.Inv timeNow fn runNum w c) (hm : c.main = .returned) :
    ∃ w1, afterCalls fn runNum.toNat (timeNow w).2 = some w1 ∧ c.world = (timeNow w1).2 ∧
      c.info = { start := (timeNow w).1, end_ := (timeNow w1).1, LastRes := none } := by
  have hcalls := (hinv.joined_all (Or.inr hm)).2
  have hw := hinv.world (hinv.joined_no_panic (Or.inr hm))
  have hs := hinv.start (by rw [hm]; decide)
  have hl := hinv.lastRes
  rw [hm] at hw
  simp only at hw
  obtain ⟨w1, ha, hw1, he⟩ := hw
  rw [hcalls] at ha
  refine ⟨w1, ha, hw1, ?_⟩
  cases hi : c.info with
  | mk s e l =>
    rw [hi] at hs he hl
    simp only at hs he hl
    rw [hs, he, hl]

/-- What a call of `BenchTimeSync` past `wg.Wait()` has done. -/
theorem BenchTimeSync.Inv.at_stamp {ε σ ρ : Type} {timeNow : σ → Instant × σ}
    {fn : σ → Outcome ε Unit σ} {runNum : Int} {w : σ} {c : Conf ε σ ρ}
    (hinv : BenchTimeSync.Inv timeNow fn runNum w c) (hm : c.main = .stamp) :
    afterCalls fn runNum.toNat (timeNow w).2 = some c.world := by
  have hcalls := (hinv.joined_all (Or.inl hm)).2
  have hw := hinv.world (hinv.joined_no_panic (Or.inl hm))
  rw [hm] at hw
  simp only at hw
  rw [hcalls] at hw
  exact hw

/-- When `int32(runNum)` is negative, `BenchTimeSync` reads the clock and then
panics in `wg.Add(runNum)`. -/
theorem BenchTimeSync.run_add_panics {ε σ ρ : Type} (timeNow : σ → Instant × σ)
    (fn : σ → Outcome ε Unit σ) (runNum : Int) (w : σ) (hneg : int32 runNum < 0) :
    pkg.run (BenchTimeSync.step timeNow fn runNum) (Conf.init w : Conf ε σ ρ) [.main, .main] =
      some { world := (timeNow w).2,
             info := { start := (timeNow w).1, end_ := 0, LastRes := none },
             wg := int32 runNum, main := .panicked, gs := [],
             panics := [.negativeWaitGroupCounter], calls := 0 } := by
  simp [pkg.run, BenchTimeSync.step, Conf.init, hneg]

/-- When `int32(runNum)` is negative, no state of `BenchTimeSync` has a goroutine, an
invocation of the work unit, or the calling goroutine past `wg.Add(runNum)`. -/
theorem BenchTimeSync.reach_add_panics {ε σ ρ : Type} (timeNow : σ → Instant × σ)
    (fn : σ → Outcome ε Unit σ) (runNum : Int) (w : σ) (hneg : int32 runNum < 0)
    (sched : List Action) (c : Conf ε σ ρ)
    (hrun : pkg.run (BenchTimeSync.step timeNow fn runNum) (Conf.init w) sched = some c) :
    c.gs = [] ∧ c.calls = 0 ∧ (c.main = .start ∨ c.main = .add ∨ c.main = .panicked) ∧
      (c.main ≠ .panicked → c.wg = 0) := by
  refine run_invariant (BenchTimeSync.step timeNow fn runNum)
    (fun c => c.gs = [] ∧ c.calls = 0 ∧
      (c.main = .start ∨ c.main = .add ∨ c.main = .panicked) ∧
      (c.main ≠ .panicked → c.wg = 0)) ?_ sched (Conf.init w) c
    ⟨rfl, rfl, Or.inl rfl, fun _ => rfl⟩ hrun
  intro c a c1 hc hs
  obtain ⟨hgs, hcalls, hmain, hwg⟩ := hc
  obtain ⟨cworld, cinfo, cwg, cmain, cgs, cpanics, ccalls⟩ := c
  simp only at hgs hcalls hmain hwg
  subst hgs hcalls
  cases a with
  | go g => simp [BenchTimeSync.step] at hs
  | main =>
    simp only [BenchTimeSync.step] at hs
    rcases hmain with h | h | h
    · subst h
      have hwg := hwg (by decide)
      simp only [Option.some.injEq] at hs
      subst hs
      simp [hwg]
    · subst h
      have hwg := hwg (by decide)
      subst hwg
      simp only [zero_add] at hs
      rw [if_pos hneg] at hs
      simp only [Option.some.injEq] at hs
      subst hs
      simp
    · subst h
      simp at hs

/-- With `runNum ≤ 0`, no state of `BenchTimeSync` has a goroutine or an invocation
of the work unit. -/
theorem BenchTimeSync.reach_nonpos {ε σ ρ : Type} (timeNow : σ → Instant × σ)
    (fn : σ → Outcome ε Unit σ) (runNum : Int) (w : σ) (hn : runNum ≤ 0)
    (sched : List Action) (c : Conf ε σ ρ)
    (hrun : pkg.run (BenchTimeSync.step timeNow fn runNum) (Conf.init w) sched = some c) :
    c.gs = [] ∧ c.calls = 0 ∧ ∀ i, c.main = .loop i → i = 0 := by
  refine run_invariant (BenchTimeSync.step timeNow fn runNum)
    (fun c => c.gs = [] ∧ c.calls = 0 ∧ ∀ i, c.main = .loop i → i = 0) ?_ sched
    (Conf.init w) c ⟨rfl, rfl, fun i h => by simp [Conf.init] at h⟩ hrun
  intro c a c1 hc hs
  obtain ⟨hgs, hcalls, hloop⟩ := hc
  obtain ⟨cworld, cinfo, cwg, cmain, cgs, cpanics, ccalls⟩ := c
  simp only at hgs hcalls hloop
  subst hgs hcalls
  cases a with
  | go g => simp [BenchTimeSync.step] at hs
  | main =>
    simp only [BenchTimeSync.step] at hs
    cases cmain with
    | start => simp only [Option.some.injEq] at hs; subst hs; simp
    | add =>
      simp only at hs
      split at hs <;> (simp only [Option.some.injEq] at hs; subst hs; simp)
    | loop i =>
      have hi := hloop i rfl
      subst hi
      simp only at hs
      rw [if_neg (by omega)] at hs
      simp only [Option.some.injEq] at hs
      subst hs
      simp
    | wait =>
      simp only at hs
      split at hs
      · simp only [Option.some.injEq] at hs; subst hs; simp
      · simp at hs
    | stamp => simp only [Option.some.injEq] at hs; subst hs; simp
    | returned => simp at hs
    | panicked => simp at hs

/-! ## The two packages agree -/

theorem benchmark.Time.loop_eq_BenchTime {ε σ : Type} (fn : σ → Outcome ε Unit σ)
    (runNum : Int) :
    ∀ (k : Nat) (i : Int) (h : Seq σ), (runNum - i).toNat = k →
      benchmark.Time.loop fn runNum i h = BenchTime.loop fn runNum i h := by
  intro k
  induction k with
  | zero =>
    intro i h hk
    rw [benchmark.Time.loop, BenchTime.loop, if_neg (by omega), if_neg (by omega)]
  | succ k ih =>
    intro i h hk
    rw [benchmark.Time.loop, BenchTime.loop, if_pos (by omega), if_pos (by omega)]
    cases invoke fn i h with
    | ret v h1 => exact ih (i + 1) h1 (by omega)
    | panic e h1 => rfl

theorem benchmark.Time_eq_BenchTime {ε σ ρ : Type} (timeNow : σ → Instant × σ)
    (fn : σ → Outcome ε Unit σ) (runNum : Int) (w : σ) :
    (benchmark.Time timeNow fn runNum w : Outcome ε (Info ρ) (Seq σ)) =
      BenchTime timeNow fn runNum w := by
  simp only [benchmark.Time, BenchTime]
  rw [benchmark.Time.loop_eq_BenchTime fn runNum _ 0 _ rfl]

theorem benchmark.TimeAndRes.loop_eq_BenchTimeAndRes {ε σ ρ : Type}
    (fn : σ → Outcome ε (Option ρ) σ) (runNum : Int) :
    ∀ (k : Nat) (i : Int) (res : Option ρ) (h : Seq σ), (runNum - i).toNat = k →
      benchmark.TimeAndRes.loop fn runNum i res h = BenchTimeAndRes.loop fn runNum i res h := by
  intro k
  induction k with
  | zero =>
    intro i res h hk
    rw [benchmark.TimeAndRes.loop, BenchTimeAndRes.loop, if_neg (by omega), if_neg (by omega)]
  | succ k ih =>
    intro i res h hk
    rw [benchmark.TimeAndRes.loop, BenchTimeAndRes.loop, if_pos (by omega), if_pos (by omega)]
    cases invoke fn i h with
    | ret v h1 => exact ih (i + 1) _ h1 (by omega)
    | panic e h1 => rfl

theorem benchmark.TimeAndRes_eq_BenchTimeAndRes {ε σ ρ : Type} (timeNow : σ → Instant × σ)
    (fn : σ → Outcome ε (Option ρ) σ) (runNum : Int) (w : σ) :
    benchmark.TimeAndRes timeNow fn runNum w = BenchTimeAndRes timeNow fn runNum w := by
  simp only [benchmark.TimeAndRes, BenchTimeAndRes]
  rw [benchmark.TimeAndRes.loop_eq_BenchTimeAndRes fn runNum _ 0 none _ rfl]

/-! ## Whole calls of the sequential harnesses -/

theorem indices_eq_map_range (k : Nat) :
    ∀ i : Int, indices i k = (List.range k).map (fun j : Nat => i + (j : Int)) := by
  induction k with
  | zero => intro i; rfl
  | succ k ih =>
    intro i
    rw [indices, ih (i + 1), List.range_succ_eq_map, List.map_cons, List.map_map]
    simp only [Nat.cast_zero, add_zero, List.cons.injEq, true_and]
    apply List.map_congr_left
    intro j _
    simp only [Function.comp_apply, Nat.succ_eq_add_one, Nat.cast_add, Nat.cast_one]
    omega

theorem indices_zero (k : Nat) : indices 0 k = (List.range k).map Int.ofNat := by
  rw [indices_eq_map_range]
  apply List.map_congr_left
  intro j _
  simp

/-- A call of `BenchTime` whose `runNum` invocations all return. -/
theorem BenchTime_ret {ε σ ρ : Type} (timeNow : σ → Instant × σ) (fn : σ → Outcome ε Unit σ)
    (runNum : Int) (w w1 : σ) (hn : 0 ≤ runNum)
    (ha : afterCalls fn runNum.toNat (timeNow w).2 = some w1) :
    (BenchTime timeNow fn runNum w : Outcome ε (Info ρ) (Seq σ)) =
      .ret { start := (timeNow w).1, end_ := (timeNow w1).1, LastRes := none }
        ⟨(timeNow w1).2, (List.range runNum.toNat).map Int.ofNat⟩ := by
  simp only [BenchTime]
  rw [BenchTime_loop_ret fn runNum runNum.toNat 0 ⟨(timeNow w).2, []⟩ w1 (by simp)
    (by simp only [sub_zero]; omega) ha]
  simp [indices_zero]

/-- A call of `BenchTime` whose invocation after `k` returning ones panics. -/
theorem BenchTime_panic {ε σ ρ : Type} (timeNow : σ → Instant × σ)
    (fn : σ → Outcome ε Unit σ) (runNum : Int) (k : Nat) (w w1 w2 : σ) (e : ε)
    (hk : (k : Int) < runNum) (ha : afterCalls fn k (timeNow w).2 = some w1)
    (hf : fn w1 = .panic e w2) :
    (BenchTime timeNow fn runNum w : Outcome ε (Info ρ) (Seq σ)) =
      .panic e ⟨w2, (List.range (k + 1)).map Int.ofNat⟩ := by
  simp only [BenchTime]
  rw [BenchTime_loop_panic fn runNum k 0 ⟨(timeNow w).2, []⟩ w1 w2 e (by omega) ha hf]
  simp [indices_zero]

/-- A call of `BenchTimeAndRes` whose `runNum > 0` invocations all return. -/
theorem BenchTimeAndRes_ret {ε σ ρ : Type} (timeNow : σ → Instant × σ)
    (fn : σ → Outcome ε (Option ρ) σ) (runNum : Int) (w w1 : σ) (v : Option ρ)
    (hn : 0 < runNum) (hc : nthCall fn (runNum.toNat - 1) (timeNow w).2 = .ret v w1) :
    BenchTimeAndRes timeNow fn runNum w =
      .ret { start := (timeNow w).1, end_ := (timeNow w1).1, LastRes := v }
        ⟨(timeNow w1).2, (List.range runNum.toNat).map Int.ofNat⟩ := by
  simp only [BenchTimeAndRes]
  rw [BenchTimeAndRes_loop_ret fn runNum (runNum.toNat - 1) 0 none ⟨(timeNow w).2, []⟩ v w1
    (by omega) hc]
  have : runNum.toNat - 1 + 1 = runNum.toNat := by omega
  simp [indices_zero, this]

/-- A call of `BenchTimeAndRes` whose invocation after `k` returning ones panics. -/
theorem BenchTimeAndRes_panic {ε σ ρ : Type} (timeNow : σ → Instant × σ)
    (fn : σ → Outcome ε (Option ρ) σ) (runNum : Int) (k : Nat) (w w1 w2 : σ) (e : ε)
    (hk : (k : Int) < runNum) (ha : afterCalls fn k (timeNow w).2 = some w1)
    (hf : fn w1 = .panic e w2) :
    BenchTimeAndRes timeNow fn runNum w =
      .panic e ⟨w2, (List.range (k + 1)).map Int.ofNat⟩ := by
  simp only [BenchTimeAndRes]
  rw [BenchTimeAndRes_loop_panic fn runNum k 0 none ⟨(timeNow w).2, []⟩ w1 w2 e (by omega)
    ha hf]
  simp [indices_zero]

/-- A call of `BenchTime` with `runNum ≤ 0`: the loop body never runs. -/
theorem BenchTime_nonpos {ε σ ρ : Type} (timeNow : σ → Instant × σ)
    (fn : σ → Outcome ε Unit σ) (runNum : Int) (w : σ) (hn : runNum ≤ 0) :
    (BenchTime timeNow fn runNum w : Outcome ε (Info ρ) (Seq σ)) =
      .ret { start := (timeNow w).1, end_ := (timeNow (timeNow w).2).1, LastRes := none }
        ⟨(timeNow (timeNow w).2).2, []⟩ := by
  simp only [BenchTime]
  rw [BenchTime_loop_done fn runNum 0 _ hn]

/-- A call of `BenchTimeAndRes` with `runNum ≤ 0`: the loop body never runs. -/
theorem BenchTimeAndRes_nonpos {ε σ ρ : Type} (timeNow : σ → Instant × σ)
    (fn : σ → Outcome ε (Option ρ) σ) (runNum : Int) (w : σ) (hn : runNum ≤ 0) :
    BenchTimeAndRes timeNow fn runNum w =
      .ret { start := (timeNow w).1, end_ := (timeNow (timeNow w).2).1, LastRes := none }
        ⟨(timeNow (timeNow w).2).2, []⟩ := by
  simp only [BenchTimeAndRes]
  rw [BenchTimeAndRes_loop_done fn runNum 0 none _ hn]

/-! ## The clock -/

theorem Elapses.head {ε α σ : Type} {fn : σ → Outcome ε α σ} {w w1 w2 : σ} {v : α}
    (hf : fn w = .ret v w1) (h : Elapses fn w1 w2) : Elapses fn w w2 := by
  induction h with
  | refl => exact Elapses.work (Elapses.refl w) hf
  | work _ hf2 ih => exact Elapses.work ih hf2

theorem Elapses.of_afterCalls {ε α σ : Type} (fn : σ → Outcome ε α σ) :
    ∀ (k : Nat) (w w1 : σ), afterCalls fn k w = some w1 → Elapses fn w w1 := by
  intro k
  induction k with
  | zero =>
    intro w w1 h
    simp only [afterCalls, Option.some.injEq] at h
    subst h
    exact Elapses.refl w
  | succ k ih =>
    intro w w1 h
    obtain ⟨v, w0, hf, h0⟩ := afterCalls_succ_some fn k w w1 h
    exact Elapses.head hf (ih w0 w1 h0)

/-! ## The concrete world -/

theorem Demo.incr_nonFailing : NonFailing Demo.incr := fun _ => ⟨(), _, rfl⟩

theorem Demo.next_nonFailing : NonFailing Demo.next := fun _ => ⟨_, _, rfl⟩

theorem Demo.clock_le_of_elapses_incr {d d1 : Demo} (h : Elapses Demo.incr d d1) :
    d.clock ≤ d1.clock := by
  induction h with
  | refl => exact le_refl _
  | work _ hf ih =>
    simp only [Demo.incr, Outcome.ret.injEq, true_and] at hf
    subst hf
    simp only
    omega

theorem Demo.clock_le_of_elapses_next {d d1 : Demo} (h : Elapses Demo.next d d1) :
    d.clock ≤ d1.clock := by
  induction h with
  | refl => exact le_refl _
  | work _ hf ih =>
    simp only [Demo.next, Outcome.ret.injEq] at hf
    obtain ⟨_, hf⟩ := hf
    subst hf
    simp only
    omega

theorem Demo.nonDecreasing_incr : NonDecreasingClock Demo.timeNow Demo.incr := by
  intro d d1 h
  have h1 := Demo.clock_le_of_elapses_incr h
  have h2 : (Demo.timeNow d).2.clock = d.clock + 1 := rfl
  show d.clock ≤ d1.clock
  omega

theorem Demo.nonDecreasing_next : NonDecreasingClock Demo.timeNow Demo.next := by
  intro d d1 h
  have h1 := Demo.clock_le_of_elapses_next h
  have h2 : (Demo.timeNow d).2.clock = d.clock + 1 := rfl
  show d.clock ≤ d1.clock
  omega

/-! ## The concurrent harness, whatever `runNum` is -/

theorem BenchTimeSync.Safe.of_init {ε σ ρ : Type} (timeNow : σ → Instant × σ)
    (fn : σ → Outcome ε Unit σ) (w : σ) :
    BenchTimeSync.Safe timeNow fn w (Conf.init w : Conf ε σ ρ) := by
  constructor <;> simp [Conf.init]

/-- With a work unit that never panics, every step keeps `Safe`. -/
theorem BenchTimeSync.Safe.of_step {ε σ ρ : Type} (timeNow : σ → Instant × σ)
    (fn : σ → Outcome ε Unit σ) (runNum : Int) (w : σ) (hnf : NonFailing fn) (a : Action)
    (c c1 : Conf ε σ ρ) (hs : BenchTimeSync.Safe timeNow fn w c)
    (hstep : BenchTimeSync.step timeNow fn runNum c a = some c1) :
    BenchTimeSync.Safe timeNow fn w c1 := by
  obtain ⟨lastRes, start, fresh, elapsed, stamped⟩ := hs
  obtain ⟨cworld, cinfo, cwg, cmain, cgs, cpanics, ccalls⟩ := c
  simp only at lastRes start fresh elapsed stamped
  cases a with
  | main =>
    simp only [BenchTimeSync.step] at hstep
    cases cmain with
    | start =>
      obtain ⟨hw, _⟩ := fresh rfl
      subst hw
      simp only [Option.some.injEq] at hstep
      subst hstep
      exact ⟨rfl, fun _ => rfl, fun h => by simp at h, fun _ _ => Elapses.refl _,
        fun h => by simp at h⟩
    | add =>
      have he := elapsed (by decide) (by decide)
      simp only at hstep
      split at hstep <;>
        (simp only [Option.some.injEq] at hstep
         subst hstep
         exact ⟨lastRes, fun _ => start (by decide), fun h => by simp at h, fun _ _ => he,
           fun h => by simp at h⟩)
    | loop i =>
      have he := elapsed (by simp) (by simp)
      simp only at hstep
      split at hstep <;>
        (simp only [Option.some.injEq] at hstep
         subst hstep
         exact ⟨lastRes, fun _ => start (by simp), fun h => by simp at h, fun _ _ => he,
           fun h => by simp at h⟩)
    | wait =>
      have he := elapsed (by decide) (by decide)
      simp only at hstep
      split at hstep
      · simp only [Option.some.injEq] at hstep
        subst hstep
        exact ⟨lastRes, fun _ => start (by decide), fun h => by simp at h, fun _ _ => he,
          fun h => by simp at h⟩
      · simp at hstep
    | stamp =>
      have he := elapsed (by decide) (by decide)
      simp only [Option.some.injEq] at hstep
      subst hstep
      exact ⟨lastRes, fun _ => start (by decide), fun h => by simp at h,
        fun _ h => absurd rfl h, fun _ => ⟨cworld, he, rfl⟩⟩
    | returned => simp at hstep
    | panicked => simp at hstep
  | go g =>
    simp only [BenchTimeSync.step] at hstep
    cases hg : cgs[g]? with
    | none => simp [hg] at hstep
    | some x =>
      have hnotstart : cmain ≠ .start := by
        intro h
        obtain ⟨_, hgs⟩ := fresh h
        subst hgs
        simp at hg
      cases x with
      | spawned =>
        simp only [hg] at hstep
        cases hf : fn cworld with
        | ret v w1 =>
          simp only [hf, Option.some.injEq] at hstep
          subst hstep
          exact ⟨lastRes, start, fun h => absurd h hnotstart,
            fun h1 h2 => Elapses.work (elapsed h1 h2) hf, stamped⟩
        | panic e w1 =>
          obtain ⟨v, w2, hret⟩ := hnf cworld
          rw [hret] at hf
          cases hf
      | ran =>
        simp only [hg] at hstep
        split at hstep <;>
          (simp only [Option.some.injEq] at hstep
           subst hstep
           exact ⟨lastRes, start, fun h => absurd h hnotstart, elapsed, stamped⟩)
      | exited => simp [hg] at hstep
      | panicked => simp [hg] at hstep

/-- With a work unit that never panics, every state of `BenchTimeSync` is `Safe`. -/
theorem BenchTimeSync.Safe.of_run {ε σ ρ : Type} (timeNow : σ → Instant × σ)
    (fn : σ → Outcome ε Unit σ) (runNum : Int) (w : σ) (hnf : NonFailing fn)
    (sched : List Action) (c : Conf ε σ ρ)
    (hrun : pkg.run (BenchTimeSync.step timeNow fn runNum) (Conf.init w) sched = some c) :
    BenchTimeSync.Safe timeNow fn w c :=
  run_invariant (BenchTimeSync.step timeNow fn runNum) (BenchTimeSync.Safe timeNow fn w)
    (fun c a c1 hs hstep => BenchTimeSync.Safe.of_step timeNow fn runNum w hnf a c c1 hs hstep)
    sched (Conf.init w) c (BenchTimeSync.Safe.of_init timeNow fn w) hrun

end pkg

/-! ## The claims -/

namespace pkg

/-- C1: for every repetition count `n ≥ 0` and every work unit that never panics,
`BenchTime` (and `benchmark.Time`) returns a Measurement, in the world left by `n`
successive invocations of the work unit, each starting in the world the previous one
returned in, having invoked it exactly once at each loop index `0, 1, ..., n-1`, in
this order; for `n = 0` the work unit is not invoked and a Measurement is returned. -/
theorem BenchTime_invokes_work_n_times {ε σ ρ : Type} (timeNow : σ → Instant × σ)
    (fn : σ → Outcome ε Unit σ) (n : Int) (w : σ) (hn : 0 ≤ n) (hnf : NonFailing fn) :
    (∃ w1, afterCalls fn n.toNat (timeNow w).2 = some w1 ∧
      (BenchTime timeNow fn n w : Outcome ε (Info ρ) (Seq σ)) =
        .ret { start := (timeNow w).1, end_ := (timeNow w1).1, LastRes := none }
          ⟨(timeNow w1).2, (List.range n.toNat).map Int.ofNat⟩ ∧
      (benchmark.Time timeNow fn n w : Outcome ε (Info ρ) (Seq σ)) =
        .ret { start := (timeNow w).1, end_ := (timeNow w1).1, LastRes := none }
          ⟨(timeNow w1).2, (List.range n.toNat).map Int.ofNat⟩) ∧
    (n = 0 →
      (BenchTime timeNow fn n w : Outcome ε (Info ρ) (Seq σ)) =
        .ret { start := (timeNow w).1, end_ := (timeNow (timeNow w).2).1, LastRes := none }
          ⟨(timeNow (timeNow w).2).2, []⟩ ∧
      (benchmark.Time timeNow fn n w : Outcome ε (Info ρ) (Seq σ)) =
        .ret { start := (timeNow w).1, end_ := (timeNow (timeNow w).2).1, LastRes := none }
          ⟨(timeNow (timeNow w).2).2, []⟩) := by
  constructor
  · obtain ⟨w1, ha⟩ := hnf.afterCalls n.toNat (timeNow w).2
    refine ⟨w1, ha, BenchTime_ret timeNow fn n w w1 hn ha, ?_⟩
    rw [benchmark.Time_eq_BenchTime]
    exact BenchTime_ret timeNow fn n w w1 hn ha
  · intro h0
    refine ⟨BenchTime_nonpos timeNow fn n w (by omega), ?_⟩
    rw [benchmark.Time_eq_BenchTime]
    exact BenchTime_nonpos timeNow fn n w (by omega)

/-- Witness of C1: three invocations of the counter-incrementing work unit leave the
counter at 3, with trace `[0, 1, 2]`. -/
theorem BenchTime_invokes_work_n_times_witness :
    (0 : Int) ≤ 3 ∧ NonFailing Demo.incr ∧
    (BenchTime Demo.timeNow Demo.incr 3 ⟨0, 0⟩ : Outcome String (Info Nat) (Seq Demo)) =
      .ret { start := 0, end_ := 7, LastRes := none } ⟨⟨8, 3⟩, [0, 1, 2]⟩ := by
  refine ⟨by decide, Demo.incr_nonFailing, ?_⟩
  obtain ⟨⟨w1, ha, hb, _⟩, _⟩ :=
    @BenchTime_invokes_work_n_times String Demo Nat Demo.timeNow Demo.incr 3 ⟨0, 0⟩ (by decide)
      Demo.incr_nonFailing
  have h3 : afterCalls Demo.incr (3 : Int).toNat (Demo.timeNow ⟨0, 0⟩).2 = some ⟨7, 3⟩ := rfl
  rw [h3] at ha
  cases ha
  exact hb

/-- C2: for every `n > 0` and every work unit that never panics, `BenchTimeAndRes`
(and `benchmark.TimeAndRes`) invokes the work unit once at each loop index
`0, ..., n-1` in order and returns a Measurement whose `LastRes` is the value
returned by the `n`-th invocation. -/
theorem BenchTimeAndRes_lastRes_is_last_value {ε σ ρ : Type} (timeNow : σ → Instant × σ)
    (fn : σ → Outcome ε (Option ρ) σ) (n : Int) (w : σ) (hn : 0 < n) (hnf : NonFailing fn) :
    ∃ v w1, nthCall fn (n.toNat - 1) (timeNow w).2 = .ret v w1 ∧
      BenchTimeAndRes timeNow fn n w =
        .ret { start := (timeNow w).1, end_ := (timeNow w1).1, LastRes := v }
          ⟨(timeNow w1).2, (List.range n.toNat).map Int.ofNat⟩ ∧
      benchmark.TimeAndRes timeNow fn n w =
        .ret { start := (timeNow w).1, end_ := (timeNow w1).1, LastRes := v }
          ⟨(timeNow w1).2, (List.range n.toNat).map Int.ofNat⟩ := by
  obtain ⟨v, w1, hc⟩ := hnf.nthCall (n.toNat - 1) (timeNow w).2
  refine ⟨v, w1, hc, BenchTimeAndRes_ret timeNow fn n w w1 v hn hc, ?_⟩
  rw [benchmark.TimeAndRes_eq_BenchTimeAndRes]
  exact BenchTimeAndRes_ret timeNow fn n w w1 v hn hc

/-- Witness of C2: with the work unit returning an incrementing counter starting at
1 and `n = 5`, `LastRes` is 5. -/
theorem BenchTimeAndRes_lastRes_is_last_value_witness :
    (0 : Int) < 5 ∧ NonFailing Demo.next ∧
    BenchTimeAndRes Demo.timeNow Demo.next 5 ⟨0, 0⟩ =
      .ret { start := 0, end_ := 11, LastRes := some 5 } ⟨⟨12, 5⟩, [0, 1, 2, 3, 4]⟩ := by
  refine ⟨by decide, Demo.next_nonFailing, ?_⟩
  obtain ⟨v, w1, hc, hb, _⟩ :=
    BenchTimeAndRes_lastRes_is_last_value Demo.timeNow Demo.next 5 ⟨0, 0⟩ (by decide)
      Demo.next_nonFailing
  have h5 : nthCall Demo.next ((5 : Int).toNat - 1) (Demo.timeNow ⟨0, 0⟩).2 =
      .ret (some 5) ⟨11, 5⟩ := rfl
  rw [h5] at hc
  cases hc
  exact hb

/-- C3: for every work unit, `BenchTimeAndRes` (and `benchmark.TimeAndRes`) called
with `n = 0` does not invoke the work unit (empty trace, the world only read by the
two readings of the clock) and returns a Measurement whose `LastRes` is `nil`. -/
theorem BenchTimeAndRes_zero {ε σ ρ : Type} (timeNow : σ → Instant × σ)
    (fn : σ → Outcome ε (Option ρ) σ) (w : σ) :
    BenchTimeAndRes timeNow fn 0 w =
      .ret { start := (timeNow w).1, end_ := (timeNow (timeNow w).2).1, LastRes := none }
        ⟨(timeNow (timeNow w).2).2, []⟩ ∧
    benchmark.TimeAndRes timeNow fn 0 w =
      .ret { start := (timeNow w).1, end_ := (timeNow (timeNow w).2).1, LastRes := none }
        ⟨(timeNow (timeNow w).2).2, []⟩ := by
  refine ⟨BenchTimeAndRes_nonpos timeNow fn 0 w (le_refl _), ?_⟩
  rw [benchmark.TimeAndRes_eq_BenchTimeAndRes]
  exact BenchTimeAndRes_nonpos timeNow fn 0 w (le_refl _)

/-- C8: in the two sequential harnesses (of both packages), when the `k`-th
invocation (`1 ≤ k ≤ n`) is the first to panic, with panic value `e`, the harness
call panics with the same `e`, returns no Measurement, and the work unit has been
invoked exactly `k` times, at the loop indices `0, ..., k-1`. -/
theorem sequential_panic_propagates {ε σ ρ : Type} (timeNow : σ → Instant × σ)
    (fn : σ → Outcome ε Unit σ) (gn : σ → Outcome ε (Option ρ) σ) (n : Int) (k : Nat)
    (w w1 w2 : σ) (e : ε) (hk : 1 ≤ k) (hkn : (k : Int) ≤ n) :
    (afterCalls fn (k - 1) (timeNow w).2 = some w1 → fn w1 = .panic e w2 →
      (BenchTime timeNow fn n w : Outcome ε (Info ρ) (Seq σ)) =
        .panic e ⟨w2, (List.range k).map Int.ofNat⟩ ∧
      (benchmark.Time timeNow fn n w : Outcome ε (Info ρ) (Seq σ)) =
        .panic e ⟨w2, (List.range k).map Int.ofNat⟩) ∧
    (afterCalls gn (k - 1) (timeNow w).2 = some w1 → gn w1 = .panic e w2 →
      BenchTimeAndRes timeNow gn n w = .panic e ⟨w2, (List.range k).map Int.ofNat⟩ ∧
      benchmark.TimeAndRes timeNow gn n w =
        .panic e ⟨w2, (List.range k).map Int.ofNat⟩) := by
  have hk1 : k - 1 + 1 = k := by omega
  constructor
  · intro ha hf
    have h := @BenchTime_panic ε σ ρ timeNow fn n (k - 1) w w1 w2 e (by omega) ha hf
    rw [hk1] at h
    refine ⟨h, ?_⟩
    rw [benchmark.Time_eq_BenchTime]
    exact h
  · intro ha hf
    have h := @BenchTimeAndRes_panic ε σ ρ timeNow gn n (k - 1) w w1 w2 e (by omega) ha hf
    rw [hk1] at h
    refine ⟨h, ?_⟩
    rw [benchmark.TimeAndRes_eq_BenchTimeAndRes]
    exact h

/-- Witness of C8: with `n = 5` and work units that panic on their third invocation,
both harnesses panic with that value after exactly three invocations. -/
theorem sequential_panic_propagates_witness :
    1 ≤ 3 ∧ ((3 : Nat) : Int) ≤ 5 ∧
    (BenchTime Demo.timeNow Demo.failThird 5 ⟨0, 0⟩ : Outcome String (Info Nat) (Seq Demo)) =
      .panic "boom" ⟨⟨6, 3⟩, [0, 1, 2]⟩ ∧
    BenchTimeAndRes Demo.timeNow Demo.failThirdRes 5 ⟨0, 0⟩ =
      .panic "boom" ⟨⟨6, 3⟩, [0, 1, 2]⟩ := by
  have h := @sequential_panic_propagates String Demo Nat Demo.timeNow Demo.failThird
    Demo.failThirdRes 5 3 ⟨0, 0⟩ ⟨5, 2⟩ ⟨6, 3⟩ "boom" (by decide) (by decide)
  exact ⟨by decide, by decide, (h.1 rfl rfl).1, (h.2 rfl rfl).1⟩

end pkg

namespace pkg

/-- C5, as stated, fails: called with `n = 2^31` (and a work unit that never
panics), `BenchTimeSync` and `benchmark.TimeSync` launch no execution of the work
unit: `wg.Add(n)` leaves `int32(2^31) = -2^31` in the counter and panics, and under no
schedule is a goroutine launched, the work unit invoked, or a Measurement returned. -/
theorem BenchTimeSync_count_overflows_WaitGroup :
    (run (BenchTimeSync.step Demo.timeNow Demo.incr 2147483648)
        (Conf.init ⟨0, 0⟩ : Conf String Demo Nat) [.main, .main]).map Conf.view =
      some (⟨1, 0⟩, { start := 0, end_ := 0, LastRes := none }, -2147483648, .panicked, [],
        [.negativeWaitGroupCounter], 0) ∧
    (run (benchmark.TimeSync.step Demo.timeNow Demo.incr 2147483648)
        (Conf.init ⟨0, 0⟩ : Conf String Demo Nat) [.main, .main]).map Conf.view =
      some (⟨1, 0⟩, { start := 0, end_ := 0, LastRes := none }, -2147483648, .panicked, [],
        [.negativeWaitGroupCounter], 0) ∧
    ∀ (sched : List Action) (c : Conf String Demo Nat),
      run (BenchTimeSync.step Demo.timeNow Demo.incr 2147483648) (Conf.init ⟨0, 0⟩) sched =
        some c →
      c.main ≠ .returned ∧ c.gs = [] ∧ c.calls = 0 := by
  have hneg : int32 2147483648 < 0 := by decide
  have h1 := @BenchTimeSync.run_add_panics String Demo Nat Demo.timeNow Demo.incr 2147483648
    ⟨0, 0⟩ hneg
  refine ⟨?_, ?_, ?_⟩
  · rw [h1]
    rfl
  · rw [benchmark.TimeSync.step_eq, h1]
    rfl
  · intro sched c hrun
    obtain ⟨hgs, hcalls, hmain, _⟩ :=
      BenchTimeSync.reach_add_panics Demo.timeNow Demo.incr 2147483648 ⟨0, 0⟩ hneg sched c hrun
    refine ⟨?_, hgs, hcalls⟩
    rcases hmain with h | h | h <;> (rw [h]; decide)

/-- C5, amended: for every `0 ≤ n < 2^31` and every work unit that never panics,
under every schedule of the calling goroutine and the spawned goroutines,
`BenchTimeSync` (and `benchmark.TimeSync`) raises no panic, takes at most `3n + 5`
steps, can take a step as long as it has not returned, and is past `wg.Wait()` (about
to record `end`, or returned) only when exactly `n` goroutines have been launched,
each has invoked the work unit once and has exited: the world is then the one left
by `n` invocations; some schedule does return; for `n = 0` the calling goroutine
returns by its own five steps, with no invocation. -/
theorem BenchTimeSync_joins_all {ε σ ρ : Type} (timeNow : σ → Instant × σ)
    (fn : σ → Outcome ε Unit σ) (n : Int) (w : σ)
    (step : Conf ε σ ρ → Action → Option (Conf ε σ ρ))
    (hn : 0 ≤ n) (hn2 : n < 2147483648) (hnf : NonFailing fn)
    (hstep : step = BenchTimeSync.step timeNow fn n ∨
      step = benchmark.TimeSync.step timeNow fn n) :
    (∀ sched c, run step (Conf.init w) sched = some c →
      c.panics = [] ∧ sched.length ≤ 3 * n.toNat + 5 ∧
      (c.main ≠ .returned → ∃ a c1, step c a = some c1) ∧
      (c.main = .stamp →
        c.gs = List.replicate n.toNat .exited ∧ c.calls = n.toNat ∧
        afterCalls fn n.toNat (timeNow w).2 = some c.world) ∧
      (c.main = .returned →
        c.gs = List.replicate n.toNat .exited ∧ c.calls = n.toNat ∧
        ∃ w1, afterCalls fn n.toNat (timeNow w).2 = some w1 ∧ c.world = (timeNow w1).2 ∧
          c.info = { start := (timeNow w).1, end_ := (timeNow w1).1, LastRes := none })) ∧
    (∃ sched c, run step (Conf.init w) sched = some c ∧ c.main = .returned) ∧
    (n = 0 → ∃ c, run step (Conf.init w) [.main, .main, .main, .main, .main] = some c ∧
      c.main = .returned ∧ c.calls = 0 ∧ c.gs = []) := by
  have hs := BenchTimeSync.step_of_either hstep
  subst hs
  have hinit := @BenchTimeSync.Inv.init ε σ ρ timeNow fn n w
  refine ⟨?_, ?_, ?_⟩
  · intro sched c hrun
    obtain ⟨hinv, hlen⟩ := BenchTimeSync.Inv.run timeNow fn n w hn hn2 sched _ c hinit hrun
    have hc := BenchTimeSync.run_no_panic timeNow fn n w hn hn2 hnf sched _ c hinit rfl hrun
    rw [Conf.stepsLeft_init] at hlen
    refine ⟨hc, by omega, ?_, ?_, ?_⟩
    · exact BenchTimeSync.Inv.progress timeNow fn n w c hinv hc
    · intro hm
      exact ⟨(hinv.joined_all (Or.inl hm)).1, (hinv.joined_all (Or.inl hm)).2,
        hinv.at_stamp hm⟩
    · intro hm
      exact ⟨(hinv.joined_all (Or.inr hm)).1, (hinv.joined_all (Or.inr hm)).2,
        hinv.at_return hm⟩
  · exact BenchTimeSync.Inv.exists_return timeNow fn n w hn hn2 hnf _ (Conf.init w)
      (le_refl _) hinit rfl
  · intro h0
    subst h0
    refine ⟨{ world := (timeNow (timeNow w).2).2,
              info := { start := (timeNow w).1, end_ := (timeNow (timeNow w).2).1,
                        LastRes := none },
              wg := 0, main := .returned, gs := [], panics := [], calls := 0 }, ?_,
      rfl, rfl, rfl⟩
    have h32 : int32 0 = 0 := by decide
    simp [run, BenchTimeSync.step, Conf.init, h32]

/-- Witness of C5, amended: three goroutines incrementing the counter, run under an
interleaved schedule: when the call returns the counter is exactly 3. -/
theorem BenchTimeSync_joins_all_witness :
    (0 : Int) ≤ 3 ∧ (3 : Int) < 2147483648 ∧ NonFailing Demo.incr ∧
    ∃ c : Conf String Demo Nat,
      run (BenchTimeSync.step Demo.timeNow Demo.incr 3) (Conf.init ⟨0, 0⟩)
        [.main, .main, .main, .main, .main, .go 2, .go 0, .go 1, .go 0, .main, .go 2,
          .go 1, .main, .main] = some c ∧
      c.main = .returned ∧ c.world.counter = 3 ∧
      c.gs = [.exited, .exited, .exited] ∧ c.calls = 3 := by
  refine ⟨by decide, by decide, Demo.incr_nonFailing, ?_⟩
  have h := (BenchTimeSync_joins_all Demo.timeNow Demo.incr 3 (⟨0, 0⟩ : Demo)
    (BenchTimeSync.step Demo.timeNow Demo.incr 3 : Conf String Demo Nat → _)
    (by decide) (by decide) Demo.incr_nonFailing (Or.inl rfl)).1
  cases hrun : run (BenchTimeSync.step Demo.timeNow Demo.incr 3)
      (Conf.init ⟨0, 0⟩ : Conf String Demo Nat)
      [.main, .main, .main, .main, .main, .go 2, .go 0, .go 1, .go 0, .main, .go 2,
        .go 1, .main, .main] with
  | none =>
    have hsome : (run (BenchTimeSync.step Demo.timeNow Demo.incr 3)
        (Conf.init ⟨0, 0⟩ : Conf String Demo Nat)
        [.main, .main, .main, .main, .main, .go 2, .go 0, .go 1, .go 0, .main, .go 2,
          .go 1, .main, .main]).isSome = true := rfl
    rw [hrun] at hsome
    cases hsome
  | some c =>
    have hm : c.main = .returned := by
      have : ((run (BenchTimeSync.step Demo.timeNow Demo.incr 3)
        (Conf.init ⟨0, 0⟩ : Conf String Demo Nat)
        [.main, .main, .main, .main, .main, .go 2, .go 0, .go 1, .go 0, .main, .go 2,
          .go 1, .main, .main]).map (fun c => c.main)) = some .returned := rfl
      rw [hrun] at this
      simpa using this
    obtain ⟨_, _, _, _, hret⟩ := h _ c hrun
    obtain ⟨hgs, hcalls, w1, ha, hw, _⟩ := hret hm
    have h3 : afterCalls Demo.incr (3 : Int).toNat (Demo.timeNow ⟨0, 0⟩).2 = some ⟨7, 3⟩ := rfl
    rw [h3] at ha
    cases ha
    exact ⟨c, rfl, hm, by rw [hw]; rfl, hgs, hcalls⟩

end pkg

namespace pkg

/-- C4, as stated, fails: called with `n = -1`, `BenchTime` and `BenchTimeAndRes` do
not fail; they return a Measurement, the same as for `n = 0`. -/
theorem negative_count_not_rejected :
    (BenchTime Demo.timeNow Demo.incr (-1) ⟨0, 0⟩ : Outcome String (Info Nat) (Seq Demo)) =
      .ret { start := 0, end_ := 1, LastRes := none } ⟨⟨2, 0⟩, []⟩ ∧
    (BenchTime Demo.timeNow Demo.incr (-1) ⟨0, 0⟩ : Outcome String (Info Nat) (Seq Demo)) =
      BenchTime Demo.timeNow Demo.incr 0 ⟨0, 0⟩ ∧
    BenchTimeAndRes Demo.timeNow Demo.next (-1) ⟨0, 0⟩ =
      .ret { start := 0, end_ := 1, LastRes := none } ⟨⟨2, 0⟩, []⟩ ∧
    BenchTimeAndRes Demo.timeNow Demo.next (-1) ⟨0, 0⟩ =
      BenchTimeAndRes Demo.timeNow Demo.next 0 ⟨0, 0⟩ := by
  refine ⟨?_, ?_, ?_, ?_⟩
  · rw [BenchTime_nonpos Demo.timeNow Demo.incr (-1) ⟨0, 0⟩ (by decide)]
    rfl
  · rw [BenchTime_nonpos Demo.timeNow Demo.incr (-1) ⟨0, 0⟩ (by decide),
      BenchTime_nonpos Demo.timeNow Demo.incr 0 ⟨0, 0⟩ (by decide)]
  · rw [BenchTimeAndRes_nonpos Demo.timeNow Demo.next (-1) ⟨0, 0⟩ (by decide)]
    rfl
  · rw [BenchTimeAndRes_nonpos Demo.timeNow Demo.next (-1) ⟨0, 0⟩ (by decide),
      BenchTimeAndRes_nonpos Demo.timeNow Demo.next 0 ⟨0, 0⟩ (by decide)]

/-- C4, amended: for every negative `n` and every work unit, none of the three
harnesses invokes the work unit, and `BenchTimeSync` launches no goroutine;
`BenchTime` and `BenchTimeAndRes` return the Measurement they return for `n = 0`
(with `LastRes` `nil`); `BenchTimeSync` with `-2^31 ≤ n < 0` returns no Measurement:
after reading the clock it panics in `wg.Add(n)` with the negative `WaitGroup`
counter, under every schedule. -/
theorem negative_count_behaviour {ε σ ρ : Type} (timeNow : σ → Instant × σ)
    (fn : σ → Outcome ε Unit σ) (gn : σ → Outcome ε (Option ρ) σ) (n : Int) (w : σ)
    (hn : n < 0) :
    ((BenchTime timeNow fn n w : Outcome ε (Info ρ) (Seq σ)) =
        .ret { start := (timeNow w).1, end_ := (timeNow (timeNow w).2).1, LastRes := none }
          ⟨(timeNow (timeNow w).2).2, []⟩ ∧
      (BenchTime timeNow fn n w : Outcome ε (Info ρ) (Seq σ)) = BenchTime timeNow fn 0 w) ∧
    (BenchTimeAndRes timeNow gn n w =
        .ret { start := (timeNow w).1, end_ := (timeNow (timeNow w).2).1, LastRes := none }
          ⟨(timeNow (timeNow w).2).2, []⟩ ∧
      BenchTimeAndRes timeNow gn n w = BenchTimeAndRes timeNow gn 0 w) ∧
    (∀ (sched : List Action) (c : Conf ε σ ρ),
      run (BenchTimeSync.step timeNow fn n) (Conf.init w) sched = some c →
      c.gs = [] ∧ c.calls = 0) ∧
    (-2147483648 ≤ n →
      run (BenchTimeSync.step timeNow fn n) (Conf.init w : Conf ε σ ρ) [.main, .main] =
        some { world := (timeNow w).2,
               info := { start := (timeNow w).1, end_ := 0, LastRes := none },
               wg := n, main := .panicked, gs := [],
               panics := [.negativeWaitGroupCounter], calls := 0 } ∧
      ∀ (sched : List Action) (c : Conf ε σ ρ),
        run (BenchTimeSync.step timeNow fn n) (Conf.init w) sched = some c →
        c.main ≠ .returned) := by
  refine ⟨⟨BenchTime_nonpos timeNow fn n w (by omega), ?_⟩,
    ⟨BenchTimeAndRes_nonpos timeNow gn n w (by omega), ?_⟩, ?_, ?_⟩
  · rw [BenchTime_nonpos timeNow fn n w (by omega),
      BenchTime_nonpos timeNow fn 0 w (le_refl _)]
  · rw [BenchTimeAndRes_nonpos timeNow gn n w (by omega),
      BenchTimeAndRes_nonpos timeNow gn 0 w (le_refl _)]
  · intro sched c hrun
    obtain ⟨hgs, hcalls, _⟩ := BenchTimeSync.reach_nonpos timeNow fn n w (by omega) sched c hrun
    exact ⟨hgs, hcalls⟩
  · intro hlow
    have h32 : int32 n = n := int32_of_range n hlow (by omega)
    have hneg : int32 n < 0 := by rw [h32]; exact hn
    refine ⟨?_, ?_⟩
    · rw [BenchTimeSync.run_add_panics timeNow fn n w hneg, h32]
    · intro sched c hrun
      obtain ⟨_, _, hmain, _⟩ := BenchTimeSync.reach_add_panics timeNow fn n w hneg sched c hrun
      rcases hmain with h | h | h <;> (rw [h]; decide)

/-- Witness of C4, amended, at `n = -2`. -/
theorem negative_count_behaviour_witness :
    (-2 : Int) < 0 ∧
    (BenchTime Demo.timeNow Demo.incr (-2) ⟨0, 0⟩ : Outcome String (Info Nat) (Seq Demo)) =
      .ret { start := 0, end_ := 1, LastRes := none } ⟨⟨2, 0⟩, []⟩ ∧
    BenchTimeAndRes Demo.timeNow Demo.next (-2) ⟨0, 0⟩ =
      .ret { start := 0, end_ := 1, LastRes := none } ⟨⟨2, 0⟩, []⟩ ∧
    (run (BenchTimeSync.step Demo.timeNow Demo.incr (-2))
        (Conf.init ⟨0, 0⟩ : Conf String Demo Nat) [.main, .main]).map Conf.view =
      some (⟨1, 0⟩, { start := 0, end_ := 0, LastRes := none }, -2, .panicked, [],
        [.negativeWaitGroupCounter], 0) := by
  have h := @negative_count_behaviour String Demo Nat Demo.timeNow Demo.incr Demo.next (-2)
    ⟨0, 0⟩ (by decide)
  refine ⟨by decide, h.1.1, h.2.1.1, ?_⟩
  rw [(h.2.2.2 (by decide)).1]
  rfl

/-- C6: over a clock whose successive readings are non-decreasing, for every `n ≥ 0`
and work units that never panic: `BenchTime` and `BenchTimeAndRes` return a
Measurement whose `start` is the reading taken before any invocation, whose `end` is
the reading taken in the world left by the `n` invocations, and `start ≤ end`; every
Measurement `BenchTimeSync` returns, under every schedule, has as `start` the
reading taken before any invocation, as `end` a reading taken after invocations run
since, and `start ≤ end`; with `n < 2^31` its `end` is the reading taken in the world
left by the `n` invocations, and some schedule returns. -/
theorem end_not_before_start {ε σ ρ : Type} (timeNow : σ → Instant × σ)
    (fn : σ → Outcome ε Unit σ) (gn : σ → Outcome ε (Option ρ) σ) (n : Int) (w : σ)
    (hn : 0 ≤ n) (hnf : NonFailing fn) (hng : NonFailing gn)
    (hclk : NonDecreasingClock timeNow fn) (hclg : NonDecreasingClock timeNow gn) :
    (∃ (info : Info ρ) (h : Seq σ) (w1 : σ), BenchTime timeNow fn n w = .ret info h ∧
      afterCalls fn n.toNat (timeNow w).2 = some w1 ∧
      info.start = (timeNow w).1 ∧ info.end_ = (timeNow w1).1 ∧ info.start ≤ info.end_) ∧
    (∃ (info : Info ρ) (h : Seq σ) (w1 : σ), BenchTimeAndRes timeNow gn n w = .ret info h ∧
      afterCalls gn n.toNat (timeNow w).2 = some w1 ∧
      info.start = (timeNow w).1 ∧ info.end_ = (timeNow w1).1 ∧ info.start ≤ info.end_) ∧
    (∀ (sched : List Action) (c : Conf ε σ ρ),
      run (BenchTimeSync.step timeNow fn n) (Conf.init w) sched = some c →
      c.main = .returned →
      ∃ w1, Elapses fn (timeNow w).2 w1 ∧
        c.info.start = (timeNow w).1 ∧ c.info.end_ = (timeNow w1).1 ∧
        c.info.start ≤ c.info.end_) ∧
    (n < 2147483648 →
      (∃ (sched : List Action) (c : Conf ε σ ρ),
        run (BenchTimeSync.step timeNow fn n) (Conf.init w) sched = some c ∧
        c.main = .returned) ∧
      ∀ (sched : List Action) (c : Conf ε σ ρ),
        run (BenchTimeSync.step timeNow fn n) (Conf.init w) sched = some c →
        c.main = .returned →
        ∃ w1, afterCalls fn n.toNat (timeNow w).2 = some w1 ∧
          c.info.start = (timeNow w).1 ∧ c.info.end_ = (timeNow w1).1 ∧
          c.info.start ≤ c.info.end_) := by
  have hinit := @BenchTimeSync.Inv.init ε σ ρ timeNow fn n w
  refine ⟨?_, ?_, ?_, ?_⟩
  · obtain ⟨w1, ha⟩ := hnf.afterCalls n.toNat (timeNow w).2
    exact ⟨_, _, w1, BenchTime_ret timeNow fn n w w1 hn ha, ha, rfl, rfl,
      hclk w w1 (Elapses.of_afterCalls fn _ _ _ ha)⟩
  · rcases lt_or_eq_of_le hn with hpos | hzero
    · obtain ⟨v, w1, hc⟩ := hng.nthCall (n.toNat - 1) (timeNow w).2
      have ha : afterCalls gn n.toNat (timeNow w).2 = some w1 := by
        have := nthCall_afterCalls gn (n.toNat - 1) (timeNow w).2 w1 v hc
        have hk : n.toNat - 1 + 1 = n.toNat := by omega
        rwa [hk] at this
      exact ⟨_, _, w1, BenchTimeAndRes_ret timeNow gn n w w1 v hpos hc, ha, rfl, rfl,
        hclg w w1 (Elapses.of_afterCalls gn _ _ _ ha)⟩
    · subst hzero
      exact ⟨_, _, (timeNow w).2, BenchTimeAndRes_nonpos timeNow gn 0 w (le_refl _), rfl, rfl,
        rfl, hclg w (timeNow w).2 (Elapses.refl _)⟩
  · intro sched c hrun hm
    have hsafe := BenchTimeSync.Safe.of_run timeNow fn n w hnf sched c hrun
    obtain ⟨w1, he, hend⟩ := hsafe.stamped hm
    have hs := hsafe.start (by rw [hm]; decide)
    refine ⟨w1, he, hs, hend, ?_⟩
    rw [hs, hend]
    exact hclk w w1 he
  · intro hn2
    refine ⟨BenchTimeSync.Inv.exists_return timeNow fn n w hn hn2 hnf _ (Conf.init w)
      (le_refl _) hinit rfl, ?_⟩
    intro sched c hrun hm
    have hinv := (BenchTimeSync.Inv.run timeNow fn n w hn hn2 sched _ c hinit hrun).1
    obtain ⟨w1, ha, _, hi⟩ := hinv.at_return hm
    refine ⟨w1, ha, by rw [hi], by rw [hi], ?_⟩
    rw [hi]
    exact hclk w w1 (Elapses.of_afterCalls fn _ _ _ ha)

/-- Witness of C6: four repetitions in the concrete world, whose clock only moves
forward. -/
theorem end_not_before_start_witness :
    (0 : Int) ≤ 4 ∧ NonFailing Demo.incr ∧ NonFailing Demo.next ∧
    NonDecreasingClock Demo.timeNow Demo.incr ∧ NonDecreasingClock Demo.timeNow Demo.next ∧
    (∃ (info : Info Nat) (h : Seq Demo) (w1 : Demo),
      BenchTime Demo.timeNow Demo.incr 4 ⟨0, 0⟩ = (.ret info h : Outcome String _ _) ∧
      afterCalls Demo.incr (4 : Int).toNat (Demo.timeNow ⟨0, 0⟩).2 = some w1 ∧
      info.start = (Demo.timeNow ⟨0, 0⟩).1 ∧ info.end_ = (Demo.timeNow w1).1 ∧
      info.start ≤ info.end_) ∧
    (∃ (sched : List Action) (c : Conf String Demo Nat),
      run (BenchTimeSync.step Demo.timeNow Demo.incr 4) (Conf.init ⟨0, 0⟩) sched = some c ∧
      c.main = .returned) :=
  ⟨by decide, Demo.incr_nonFailing, Demo.next_nonFailing, Demo.nonDecreasing_incr,
    Demo.nonDecreasing_next,
    (@end_not_before_start String Demo Nat Demo.timeNow Demo.incr Demo.next 4 ⟨0, 0⟩
      (by decide) Demo.incr_nonFailing Demo.next_nonFailing Demo.nonDecreasing_incr
      Demo.nonDecreasing_next).1,
    ((@end_not_before_start String Demo Nat Demo.timeNow Demo.incr Demo.next 4 ⟨0, 0⟩
      (by decide) Demo.incr_nonFailing Demo.next_nonFailing Demo.nonDecreasing_incr
      Demo.nonDecreasing_next).2.2.2 (by decide)).1⟩

/-- C7: for every `n ≥ 0` and every work unit that never panics, `BenchTime` returns
a Measurement whose `LastRes` is `nil`, and `BenchTimeSync` holds `nil` in `LastRes`
in every state, so in every Measurement it returns; with `n < 2^31` it does return
one under some schedule. -/
theorem LastRes_absent_without_capture {ε σ ρ : Type} (timeNow : σ → Instant × σ)
    (fn : σ → Outcome ε Unit σ) (n : Int) (w : σ) (hn : 0 ≤ n) (hnf : NonFailing fn) :
    (∃ (info : Info ρ) (h : Seq σ), BenchTime timeNow fn n w = .ret info h ∧
      info.LastRes = none) ∧
    (∀ (sched : List Action) (c : Conf ε σ ρ),
      run (BenchTimeSync.step timeNow fn n) (Conf.init w) sched = some c →
      c.info.LastRes = none) ∧
    (n < 2147483648 →
      ∃ (sched : List Action) (c : Conf ε σ ρ),
        run (BenchTimeSync.step timeNow fn n) (Conf.init w) sched = some c ∧
        c.main = .returned ∧ c.info.LastRes = none) := by
  have hinit := @BenchTimeSync.Inv.init ε σ ρ timeNow fn n w
  have hall : ∀ (sched : List Action) (c : Conf ε σ ρ),
      run (BenchTimeSync.step timeNow fn n) (Conf.init w) sched = some c →
      c.info.LastRes = none := fun sched c hrun =>
    (BenchTimeSync.Safe.of_run timeNow fn n w hnf sched c hrun).lastRes
  refine ⟨?_, hall, ?_⟩
  · obtain ⟨w1, ha⟩ := hnf.afterCalls n.toNat (timeNow w).2
    exact ⟨_, _, BenchTime_ret timeNow fn n w w1 hn ha, rfl⟩
  · intro hn2
    obtain ⟨sched, c, hrun, hm⟩ := BenchTimeSync.Inv.exists_return timeNow fn n w hn hn2 hnf _
      (Conf.init w) (le_refl _) hinit rfl
    exact ⟨sched, c, hrun, hm, hall sched c hrun⟩

/-- Witness of C7: two repetitions of the counter-incrementing work unit. -/
theorem LastRes_absent_without_capture_witness :
    (0 : Int) ≤ 2 ∧ NonFailing Demo.incr ∧
    (∃ (info : Info Nat) (h : Seq Demo),
      BenchTime Demo.timeNow Demo.incr 2 ⟨0, 0⟩ = (.ret info h : Outcome String _ _) ∧
      info.LastRes = none) ∧
    (∃ (sched : List Action) (c : Conf String Demo Nat),
      run (BenchTimeSync.step Demo.timeNow Demo.incr 2) (Conf.init ⟨0, 0⟩) sched = some c ∧
      c.main = .returned ∧ c.info.LastRes = none) :=
  ⟨by decide, Demo.incr_nonFailing,
    (@LastRes_absent_without_capture String Demo Nat Demo.timeNow Demo.incr 2 ⟨0, 0⟩
      (by decide) Demo.incr_nonFailing).1,
    (@LastRes_absent_without_capture String Demo Nat Demo.timeNow Demo.incr 2 ⟨0, 0⟩
      (by decide) Demo.incr_nonFailing).2.2 (by decide)⟩

end pkg

namespace pkg

/-- C9, as stated, fails: with `n = 1` and a work unit that panics, after the
goroutine has invoked the work unit it is over without having run `wg.Done()`: the
`WaitGroup` counter is still 1 and the calling goroutine is blocked in `wg.Wait()`
(in `BenchTimeSync` and in `benchmark.TimeSync`). -/
theorem panicking_goroutine_skips_Done :
    (run (BenchTimeSync.step Demo.timeNow Demo.boom 1)
        (Conf.init ⟨0, 0⟩ : Conf String Demo Nat)
        [.main, .main, .main, .main, .go 0]).map Conf.view =
      some (⟨1, 0⟩, { start := 0, end_ := 0, LastRes := none }, 1, .wait, [.panicked],
        [.work "boom"], 1) ∧
    (run (benchmark.TimeSync.step Demo.timeNow Demo.boom 1)
        (Conf.init ⟨0, 0⟩ : Conf String Demo Nat)
        [.main, .main, .main, .main, .go 0]).map Conf.view =
      some (⟨1, 0⟩, { start := 0, end_ := 0, LastRes := none }, 1, .wait, [.panicked],
        [.work "boom"], 1) ∧
    run (BenchTimeSync.step Demo.timeNow Demo.boom 1)
        (Conf.init ⟨0, 0⟩ : Conf String Demo Nat)
        [.main, .main, .main, .main, .go 0, .main] = none ∧
    run (BenchTimeSync.step Demo.timeNow Demo.boom 1)
        (Conf.init ⟨0, 0⟩ : Conf String Demo Nat)
        [.main, .main, .main, .main, .go 0, .go 0] = none :=
  ⟨rfl, rfl, rfl, rfl⟩

/-- C9, amended: in `BenchTimeSync` and `benchmark.TimeSync` with `0 ≤ n < 2^31`,
whatever the work unit does, under every schedule: the `WaitGroup` counter is what
`wg.Add` added minus one for each goroutine that has exited; a goroutine whose
invocation of the work unit has returned decrements the counter by one, without
panicking, as its next and last step; the only panics are those of the work unit, one
per goroutine that is over without having exited; and once a goroutine has panicked
it never signals: from then on, however the schedule goes on, the counter stays above
zero, the calling goroutine does not get past `wg.Wait()` and no Measurement is
returned. -/
theorem goroutine_signals_after_work_returns {ε σ ρ : Type} (timeNow : σ → Instant × σ)
    (fn : σ → Outcome ε Unit σ) (n : Int) (w : σ)
    (step : Conf ε σ ρ → Action → Option (Conf ε σ ρ)) (sched : List Action)
    (c : Conf ε σ ρ) (hn : 0 ≤ n) (hn2 : n < 2147483648)
    (hstep : step = BenchTimeSync.step timeNow fn n ∨
      step = benchmark.TimeSync.step timeNow fn n)
    (hrun : run step (Conf.init w) sched = some c) :
    c.wg = c.main.added n - c.gs.count .exited ∧
    (∀ g, c.gs[g]? = some .ran →
      step c (.go g) = some { c with wg := c.wg - 1, gs := c.gs.set g .exited }) ∧
    ((∀ p ∈ c.panics, ∃ e, p = .work e) ∧ c.panics.length = c.gs.count .panicked) ∧
    (c.panics ≠ [] → ∀ (more : List Action) (c2 : Conf ε σ ρ), run step c more = some c2 →
      0 < c2.wg ∧ c2.main ≠ .stamp ∧ c2.main ≠ .returned ∧ c2.panics ≠ []) := by
  have hs := BenchTimeSync.step_of_either hstep
  subst hs
  have hinit := @BenchTimeSync.Inv.init ε σ ρ timeNow fn n w
  have hinv := (BenchTimeSync.Inv.run timeNow fn n w hn hn2 sched _ c hinit hrun).1
  refine ⟨hinv.wg, ?_, ⟨?_, hinv.panicked⟩, ?_⟩
  · intro g hg
    cases hstep1 : BenchTimeSync.step timeNow fn n c (.go g) with
    | none =>
      simp only [BenchTimeSync.step, hg] at hstep1
      split at hstep1 <;> cases hstep1
    | some c1 =>
      have hinv1 := (BenchTimeSync.Inv.step timeNow fn n w hn hn2 _ c c1 hinv hstep1).1
      have hnn := hinv1.noNeg
      have hnc := hinv.noNeg
      simp only [BenchTimeSync.step, hg] at hstep1
      split at hstep1
      · simp only [Option.some.injEq] at hstep1
        subst hstep1
        simp at hnn
      · rename_i hge
        simp only [Option.some.injEq] at hstep1
        subst hstep1
        have hwg1 := hinv1.wg
        have hwg := hinv.wg
        have hex := count_set_of_getElem? GPc.exited GPc.exited c.gs g .ran hg
        simp only [reduceCtorEq, if_false, if_true, add_zero] at hex
        simp only at hwg1
        have h32 : int32 (c.wg + -1) = c.wg - 1 := by
          rw [hwg1, hex, hwg]
          push_cast
          omega
        rw [h32]
  · intro p hp
    cases p with
    | work e => exact ⟨e, rfl⟩
    | negativeWaitGroupCounter => exact absurd hp hinv.noNeg
  · intro hp more c2 hmore
    have hrun2 : run (BenchTimeSync.step timeNow fn n) (Conf.init w) (sched ++ more) =
        some c2 := by
      rw [run_append _ sched more _ c hrun]
      exact hmore
    have hinv2 := (BenchTimeSync.Inv.run timeNow fn n w hn hn2 _ _ c2 hinit hrun2).1
    have hlen := BenchTimeSync.run_panics_length timeNow fn n more c c2 hmore
    have hp2 : c2.panics ≠ [] := by
      intro h
      rw [h, List.length_nil] at hlen
      exact hp (List.length_eq_zero.mp (by omega))
    obtain ⟨h1, h2, h3⟩ := hinv2.blocked_of_panic hp2
    exact ⟨h1, h2, h3, hp2⟩

/-- Witness of C9, amended: two goroutines, the first of which has run the work unit;
its next step is the one decrement, from 2 to 1. -/
theorem goroutine_signals_after_work_returns_witness :
    (0 : Int) ≤ 2 ∧ (2 : Int) < 2147483648 ∧
    (run (BenchTimeSync.step Demo.timeNow Demo.incr 2)
        (Conf.init ⟨0, 0⟩ : Conf String Demo Nat)
        [.main, .main, .main, .main, .go 0, .go 0]).map Conf.view =
      some (⟨3, 1⟩, { start := 0, end_ := 0, LastRes := none }, 1, .loop 2,
        [.exited, .spawned], [], 1) := by
  refine ⟨by decide, by decide, ?_⟩
  cases hrun : run (BenchTimeSync.step Demo.timeNow Demo.incr 2)
      (Conf.init ⟨0, 0⟩ : Conf String Demo Nat) [.main, .main, .main, .main, .go 0] with
  | none =>
    have hsome : (run (BenchTimeSync.step Demo.timeNow Demo.incr 2)
        (Conf.init ⟨0, 0⟩ : Conf String Demo Nat)
        [.main, .main, .main, .main, .go 0]).isSome = true := rfl
    rw [hrun] at hsome
    cases hsome
  | some c =>
    have hv : (run (BenchTimeSync.step Demo.timeNow Demo.incr 2)
        (Conf.init ⟨0, 0⟩ : Conf String Demo Nat)
        [.main, .main, .main, .main, .go 0]).map Conf.view =
        some (⟨3, 1⟩, { start := 0, end_ := 0, LastRes := none }, 2, .loop 2,
          [.ran, .spawned], [], 0 + 1) := rfl
    rw [hrun] at hv
    simp only [Option.map_some', Option.some.injEq, Conf.view, Prod.mk.injEq] at hv
    obtain ⟨hw, hi, hwg, hm, hgs, hcr, hca⟩ := hv
    have h := (goroutine_signals_after_work_returns Demo.timeNow Demo.incr 2 ⟨0, 0⟩
      (BenchTimeSync.step Demo.timeNow Demo.incr 2) [.main, .main, .main, .main, .go 0] c
      (by decide) (by decide) (Or.inl rfl) hrun).2.1 0 (by rw [hgs]; rfl)
    have happ := run_append (BenchTimeSync.step Demo.timeNow Demo.incr 2)
      [.main, .main, .main, .main, .go 0] [.go 0] _ c hrun
    simp only [List.cons_append, List.nil_append] at happ
    rw [happ]
    simp only [run, h, Option.map_some', Conf.view, hw, hi, hwg, hm, hgs, hcr, hca]
    rfl

end pkg

namespace logger

/-- C10: for every `Config`, the encoder configuration returned by
`getEncoderConfig` has the empty string as `StacktraceKey`, whatever
`cfg.StacktraceKey` is, and its `EncodeLevel` is the encoder named by
`cfg.EncodeLevel` among the four recognised names, the lowercase encoder for any
other string. -/
theorem getEncoderConfig_stacktraceKey_empty (cfg : Config) :
    (getEncoderConfig cfg).StacktraceKey = "" ∧
    (getEncoderConfig cfg).EncodeLevel =
      some (if cfg.EncodeLevel = "LowercaseLevelEncoder" then .LowercaseLevelEncoder
        else if cfg.EncodeLevel = "LowercaseColorLevelEncoder" then
          .LowercaseColorLevelEncoder
        else if cfg.EncodeLevel = "CapitalLevelEncoder" then .CapitalLevelEncoder
        else if cfg.EncodeLevel = "CapitalColorLevelEncoder" then .CapitalColorLevelEncoder
        else .LowercaseLevelEncoder) := by
  unfold getEncoderConfig
  constructor
  · split_ifs <;> rfl
  · split_ifs <;> rfl

end logger
